import Mathlib

/-!
Verification of the GAQL (Google Ads Query Language) lexer, parser and
validator of the `gaql` Go package (files `token.go`, `lexer.go`, the parser
and validator sources).  The Go code is shallowly embedded: the lexer walks a
list of characters (the Go code walks bytes; every input exercised here is
ASCII, where the two coincide), the parser consumes a list of tokens, and the
validator is a pure function on the `Query` AST.  Loops become fuel-indexed
recursions; the top-level entry points supply fuel bounded by the input
length, which suffices because every loop iteration consumes at least one
character or token.
-/

namespace Gaql

/-- Token kinds, mirroring the Go `TokenType` constants of `token.go`. -/
inductive TokenType where
  | tEOF | tError
  | tSelect | tFrom | tWhere | tOrderBy | tLimit | tParameters
  | tAnd | tOr | tNot | tAsc | tDesc | tIn | tLike | tContains
  | tAny | tAll | tNone | tIs | tNull | tDuring | tBetween | tRegexpMatch
  | tIdent | tString | tNumber | tDateRange
  | tEq | tNeq | tGt | tGte | tLt | tLte
  | tComma | tLParen | tRParen | tDot
  deriving DecidableEq, Repr

/-- Lexical token: kind, textual value and 1-based source position (Go `Token`). -/
structure Token where
  type : TokenType
  value : String
  line : Nat
  column : Nat
  deriving DecidableEq, Repr

/-- Rendering of token kinds, mirroring Go `TokenType.String`. -/
def tokenTypeToString : TokenType → String
  | .tEOF => "EOF"
  | .tError => "ERROR"
  | .tSelect => "SELECT"
  | .tFrom => "FROM"
  | .tWhere => "WHERE"
  | .tOrderBy => "ORDER BY"
  | .tLimit => "LIMIT"
  | .tParameters => "PARAMETERS"
  | .tAnd => "AND"
  | .tOr => "OR"
  | .tNot => "NOT"
  | .tAsc => "ASC"
  | .tDesc => "DESC"
  | .tIn => "IN"
  | .tLike => "LIKE"
  | .tContains => "CONTAINS"
  | .tAny => "ANY"
  | .tAll => "ALL"
  | .tNone => "NONE"
  | .tIs => "IS"
  | .tNull => "NULL"
  | .tDuring => "DURING"
  | .tBetween => "BETWEEN"
  | .tRegexpMatch => "REGEXP_MATCH"
  | .tIdent => "IDENT"
  | .tString => "STRING"
  | .tNumber => "NUMBER"
  | .tDateRange => "DATE_RANGE"
  | .tEq => "="
  | .tNeq => "!="
  | .tGt => ">"
  | .tGte => ">="
  | .tLt => "<"
  | .tLte => "<="
  | .tComma => ","
  | .tLParen => "("
  | .tRParen => ")"
  | .tDot => "."

/-- Date-range enumerants (Go `DateRange`). -/
inductive DateRange where
  | today | yesterday | last7Days | last14Days | last30Days
  | thisMonth | lastMonth | thisWeekSunToday | thisWeekMonToday
  | lastWeekSunSat | lastWeekMonSun | lastBusinessWeek | custom
  deriving DecidableEq, Repr

/-- The `DateRangeKeywords` table of the Go AST source, as an association list. -/
def DateRangeKeywords : List (String × DateRange) :=
  [("TODAY", .today), ("YESTERDAY", .yesterday), ("LAST_7_DAYS", .last7Days),
   ("LAST_14_DAYS", .last14Days), ("LAST_30_DAYS", .last30Days),
   ("THIS_MONTH", .thisMonth), ("LAST_MONTH", .lastMonth),
   ("THIS_WEEK_SUN_TODAY", .thisWeekSunToday), ("THIS_WEEK_MON_TODAY", .thisWeekMonToday),
   ("LAST_WEEK_SUN_SAT", .lastWeekSunSat), ("LAST_WEEK_MON_SUN", .lastWeekMonSun),
   ("LAST_BUSINESS_WEEK", .lastBusinessWeek)]

/-- Map lookup on the date-range keyword table (Go `DateRangeKeywords[s]`). -/
def lookupDR (s : String) : Option DateRange :=
  (DateRangeKeywords.find? (fun p => p.1 = s)).map (fun p => p.2)

/-- The `Keywords` table of `token.go`.  `ORDER` and `BY` map to the identifier
kind there and are handled specially by the lexer. -/
def Keywords : List (String × TokenType) :=
  [("SELECT", .tSelect), ("FROM", .tFrom), ("WHERE", .tWhere),
   ("ORDER", .tIdent), ("BY", .tIdent),
   ("LIMIT", .tLimit), ("PARAMETERS", .tParameters),
   ("AND", .tAnd), ("OR", .tOr), ("NOT", .tNot),
   ("ASC", .tAsc), ("DESC", .tDesc),
   ("IN", .tIn), ("LIKE", .tLike), ("CONTAINS", .tContains),
   ("ANY", .tAny), ("ALL", .tAll), ("NONE", .tNone),
   ("IS", .tIs), ("NULL", .tNull), ("DURING", .tDuring),
   ("BETWEEN", .tBetween), ("REGEXP_MATCH", .tRegexpMatch)]

/-- Map lookup on the keyword table (Go `Keywords[s]`). -/
def lookupKw (s : String) : Option TokenType :=
  (Keywords.find? (fun p => p.1 = s)).map (fun p => p.2)

/-! Character classification.  Go `isDigit` is ASCII; `isLetter` casts the
byte to a rune and asks `unicode.IsLetter`, which for byte values means the
ASCII letters plus the Latin-1 letters. -/

/-- ASCII digit test (Go `isDigit`). -/
def isDigitC (c : Char) : Bool :=
  '0' ≤ c && c ≤ '9'

/-- Letter test on a byte viewed as a code point (Go `isLetter`):
ASCII letters together with the Latin-1 letters. -/
def isLetterC (c : Char) : Bool :=
  ('a' ≤ c && c ≤ 'z') || ('A' ≤ c && c ≤ 'Z') ||
  (c.toNat = 0xAA) || (c.toNat = 0xB5) || (c.toNat = 0xBA) ||
  (0xC0 ≤ c.toNat && c.toNat ≤ 0xD6) || (0xD8 ≤ c.toNat && c.toNat ≤ 0xF6) ||
  (0xF8 ≤ c.toNat && c.toNat ≤ 0xFF)

/-- Characters allowed inside an identifier after the first. -/
def isIdentChar (c : Char) : Bool :=
  isLetterC c || isDigitC c || c = '_'

/-- ASCII upper-casing of one character.  The Go code uses `strings.ToUpper`;
the two agree on every comparison the lexer performs, because all keyword and
date-range table keys are pure ASCII. -/
def asciiUpperChar (c : Char) : Char :=
  if 'a' ≤ c && c ≤ 'z' then Char.ofNat (c.toNat - 32) else c

/-- ASCII lower-casing of one character (used by the validator via
`strings.ToUpper`-style comparisons, and by case-variation statements). -/
def asciiLowerChar (c : Char) : Char :=
  if 'A' ≤ c && c ≤ 'Z' then Char.ofNat (c.toNat + 32) else c

/-- ASCII upper-casing of a string. -/
def asciiUpperString (s : String) : String :=
  ⟨s.data.map asciiUpperChar⟩

/-- ASCII lower-casing of a string. -/
def asciiLowerString (s : String) : String :=
  ⟨s.data.map asciiLowerChar⟩

/-- The single-quote character, written by code point to keep the source free
of quote characters outside string literals. -/
def squote : Char := Char.ofNat 39

/-! The lexer (`lexer.go`).  The state is the list of remaining characters
together with the current 1-based line and column. -/

/-- Advance the position over one character (Go `Lexer.advance`). -/
def advPos (c : Char) (line col : Nat) : Nat × Nat :=
  if c = '\n' then (line + 1, 1) else (line, col + 1)

/-- Skip spaces, tabs, carriage returns and newlines (Go `Lexer.skipWhitespace`). -/
def skipWhitespace : List Char → Nat → Nat → List Char × Nat × Nat
  | [], line, col => ([], line, col)
  | c :: rest, line, col =>
    if c = ' ' || c = '\t' || c = '\r' then skipWhitespace rest line (col + 1)
    else if c = '\n' then skipWhitespace rest (line + 1) 1
    else (c :: rest, line, col)

/-- Decode one backslash escape inside a string literal (Go `readString`):
`n` and `t` decode to newline and tab, everything else stands for itself. -/
def escDecode (c : Char) : Char :=
  if c = 'n' then '\n' else if c = 't' then '\t' else c

/-- Body of Go `Lexer.readString`, after the opening quote has been consumed.
`startLine`/`startCol` point at the opening quote.  The Go loop checks, in
order: closing quote; backslash with at least one character following (an
escape, consuming two characters); any other character, written through.  The
two-character patterns below make that recursion structural. -/
def readStringAux (quote : Char) (startLine startCol : Nat) :
    List Char → String → Nat → Nat → Token × List Char × Nat × Nat
  | [], _, line, col =>
    (⟨.tError, "unterminated string", startLine, startCol⟩, [], line, col)
  | [c], acc, line, col =>
    if c = quote then
      let (l1, c1) := advPos c line col
      (⟨.tString, acc, startLine, startCol⟩, [], l1, c1)
    else
      -- a final backslash has no following character to escape, so it is
      -- written through like any other character; either way the loop then
      -- ends with an unterminated-string error
      let (l1, c1) := advPos c line col
      (⟨.tError, "unterminated string", startLine, startCol⟩, [], l1, c1)
  | c :: d :: rest, acc, line, col =>
    if c = quote then
      let (l1, c1) := advPos c line col
      (⟨.tString, acc, startLine, startCol⟩, d :: rest, l1, c1)
    else if c = '\\' then
      let (l1, c1) := advPos c line col
      let (l2, c2) := advPos d l1 c1
      readStringAux quote startLine startCol rest (acc.push (escDecode d)) l2 c2
    else
      let (l1, c1) := advPos c line col
      readStringAux quote startLine startCol (d :: rest) (acc.push c) l1 c1

/-- Go `Lexer.readString`: consume the opening quote, then scan the body. -/
def readString (quote : Char) (rest : List Char) (line col : Nat) :
    Token × List Char × Nat × Nat :=
  readStringAux quote line col rest "" line (col + 1)

/-- Go `Lexer.readNumber`: optional minus sign, digits, and an optional dot
followed by digits.  Mirrors the source exactly: each of the three parts may
be empty, so values such as `-` or `5.` are produced as number tokens. -/
def readNumber (rest : List Char) (line col : Nat) :
    Token × List Char × Nat × Nat :=
  let sign : List Char := if rest.head? = some '-' then ['-'] else []
  let r1 : List Char := if rest.head? = some '-' then rest.tail else rest
  let d1 := r1.takeWhile isDigitC
  let r2 := r1.dropWhile isDigitC
  let frac : List Char := if r2.head? = some '.' then '.' :: r2.tail.takeWhile isDigitC else []
  let r3 : List Char := if r2.head? = some '.' then r2.tail.dropWhile isDigitC else r2
  let value : List Char := sign ++ d1 ++ frac
  (⟨.tNumber, ⟨value⟩, line, col⟩, r3, line, col + value.length)

/-- Go `Lexer.readIdentOrKeyword`: scan an identifier word, then classify it.
A word upper-casing to `ORDER` looks past whitespace for two characters
upper-casing to `B` and `Y` (with no check on what follows them) and fuses
into a single `ORDER BY` token when found. -/
def readIdentOrKeyword (rest : List Char) (line col : Nat) :
    Token × List Char × Nat × Nat :=
  let word := rest.takeWhile isIdentChar
  let r1 := rest.dropWhile isIdentChar
  let value : String := ⟨word⟩
  let upper := asciiUpperString value
  if upper = "ORDER" then
    match skipWhitespace r1 line (col + word.length) with
    | (r2, line2, col2) =>
      match r2 with
      | b :: y :: r3 =>
        if asciiUpperChar b = 'B' && asciiUpperChar y = 'Y' then
          (⟨.tOrderBy, "ORDER BY", line, col⟩, r3, line2, col2 + 2)
        else
          (⟨.tIdent, value, line, col⟩, b :: y :: r3, line2, col2)
      | short => (⟨.tIdent, value, line, col⟩, short, line2, col2)
  else
    match lookupDR upper with
    | some _ => (⟨.tDateRange, upper, line, col⟩, r1, line, col + word.length)
    | none =>
      match lookupKw upper with
      | some tt => (⟨tt, upper, line, col⟩, r1, line, col + word.length)
      | none => (⟨.tIdent, value, line, col⟩, r1, line, col + word.length)

/-- Go `Lexer.nextToken`: skip whitespace, then scan one token.  Returns the
token together with the rest of the input and the updated position. -/
def nextToken (input : List Char) (line col : Nat) :
    Token × List Char × Nat × Nat :=
  match skipWhitespace input line col with
  | ([], l, c) => (⟨.tEOF, "", l, c⟩, [], l, c)
  | (ch :: rest, l, c) =>
    if ch = ',' then (⟨.tComma, ",", l, c⟩, rest, l, c + 1)
    else if ch = '(' then (⟨.tLParen, "(", l, c⟩, rest, l, c + 1)
    else if ch = ')' then (⟨.tRParen, ")", l, c⟩, rest, l, c + 1)
    else if ch = '.' then (⟨.tDot, ".", l, c⟩, rest, l, c + 1)
    else if ch = '=' then (⟨.tEq, "=", l, c⟩, rest, l, c + 1)
    else if ch = '!' then
      match rest with
      | '=' :: rest2 => (⟨.tNeq, "!=", l, c⟩, rest2, l, c + 2)
      | _ =>
        (⟨.tError, "unexpected character " ++ squote.toString ++ "!" ++ squote.toString, l, c⟩,
         ch :: rest, l, c)
    else if ch = '>' then
      match rest with
      | '=' :: rest2 => (⟨.tGte, ">=", l, c⟩, rest2, l, c + 2)
      | _ => (⟨.tGt, ">", l, c⟩, rest, l, c + 1)
    else if ch = '<' then
      match rest with
      | '=' :: rest2 => (⟨.tLte, "<=", l, c⟩, rest2, l, c + 2)
      | _ => (⟨.tLt, "<", l, c⟩, rest, l, c + 1)
    else if ch = squote || ch = '"' then readString ch rest l c
    else if ch = '-' || isDigitC ch then readNumber (ch :: rest) l c
    else if isLetterC ch || ch = '_' then readIdentOrKeyword (ch :: rest) l c
    else
      (⟨.tError, "unexpected character " ++ squote.toString ++ ch.toString ++ squote.toString,
        l, c⟩, rest, l, c + 1)

/-- Parse errors (`errors.go`): message plus 1-based position. -/
structure ParseError where
  message : String
  line : Nat
  column : Nat
  deriving DecidableEq, Repr

/-- Go `Lexer.Tokenize` as a fuel-indexed loop: collect tokens until the
end-of-input or an error token.  `input.length + 1` units of fuel always
suffice because every other token consumes at least one character. -/
def tokenizeF : Nat → List Char → Nat → Nat → List Token × Option ParseError
  | 0, _, _, _ => ([], some ⟨"lexer fuel exhausted", 0, 0⟩)
  | fuel + 1, input, line, col =>
    match nextToken input line col with
    | (tok, rest, l, c) =>
      if tok.type = .tEOF then ([tok], none)
      else if tok.type = .tError then
        ([tok], some ⟨tok.value, tok.line, tok.column⟩)
      else
        match tokenizeF fuel rest l c with
        | (toks, e) => (tok :: toks, e)

/-- The lexer entry point (Go `NewLexer` + `Tokenize`). -/
def Tokenize (input : String) : List Token × Option ParseError :=
  tokenizeF (input.data.length + 1) input.data 1 1

/-! The AST (Go `ast.go`-style source: `Query`, `Field`, `Condition`,
`Ordering`, `Operator`, `Value`, `ValueType`). -/

/-- Sort directions (Go `Direction`). -/
inductive Direction where
  | asc | desc
  deriving DecidableEq, Repr

/-- Rendering of directions (Go `Direction.String`). -/
def directionToString : Direction → String
  | .desc => "DESC"
  | .asc => "ASC"

/-- Comparison operators (Go `Operator`). -/
inductive Operator where
  | opEq | opNeq | opGt | opGte | opLt | opLte
  | opIn | opNotIn | opLike | opNotLike
  | opContainsAny | opContainsAll | opContainsNone
  | opIsNull | opIsNotNull | opDuring | opBetween
  | opRegexpMatch | opNotRegexpMatch
  deriving DecidableEq, Repr

/-- Rendering of operators (Go `Operator.String`). -/
def operatorToString : Operator → String
  | .opEq => "="
  | .opNeq => "!="
  | .opGt => ">"
  | .opGte => ">="
  | .opLt => "<"
  | .opLte => "<="
  | .opIn => "IN"
  | .opNotIn => "NOT IN"
  | .opLike => "LIKE"
  | .opNotLike => "NOT LIKE"
  | .opContainsAny => "CONTAINS ANY"
  | .opContainsAll => "CONTAINS ALL"
  | .opContainsNone => "CONTAINS NONE"
  | .opIsNull => "IS NULL"
  | .opIsNotNull => "IS NOT NULL"
  | .opDuring => "DURING"
  | .opBetween => "BETWEEN"
  | .opRegexpMatch => "REGEXP_MATCH"
  | .opNotRegexpMatch => "NOT REGEXP_MATCH"

/-- Value kinds (Go `ValueType`). -/
inductive ValueType where
  | valueString | valueNumber | valueList | valueDateRange | valueNull
  deriving DecidableEq, Repr

/-- Values (Go `Value`).  Like the Go struct, every payload field is present
regardless of the kind tag; unused fields hold the Go zero values.  The Go
`Number` field is a `float64`; it is modelled as an exact rational — the two
agree up to floating-point rounding, and no property proved here depends on
the numeric payload. -/
structure Value where
  type : ValueType
  str : String
  number : Rat
  list : List String
  dateRange : DateRange
  deriving DecidableEq, Repr

/-- A string value (Go `Value{Type: ValueString, Str: s}`). -/
def strValue (s : String) : Value := ⟨.valueString, s, 0, [], .today⟩

/-- A number value (Go `Value{Type: ValueNumber, Number: n}`). -/
def numValue (n : Rat) : Value := ⟨.valueNumber, "", n, [], .today⟩

/-- A list value (Go `Value{Type: ValueList, List: l}`). -/
def listValue (l : List String) : Value := ⟨.valueList, "", 0, l, .today⟩

/-- A date-range value (Go `Value{Type: ValueDateRange, DateRange: d}`). -/
def dateRangeValue (d : DateRange) : Value := ⟨.valueDateRange, "", 0, [], d⟩

/-- The null value (Go `Value{Type: ValueNull}`). -/
def nullValue : Value := ⟨.valueNull, "", 0, [], .today⟩

/-- Field reference (Go `Field`). -/
structure Field where
  name : String
  deriving DecidableEq, Repr

/-- WHERE condition (Go `Condition`). -/
structure Condition where
  field : String
  operator : Operator
  value : Value
  deriving DecidableEq, Repr

/-- ORDER BY item (Go `Ordering`). -/
structure Ordering where
  field : String
  direction : Direction
  deriving DecidableEq, Repr

/-- A parsed query (Go `Query`).  The Go `Parameters` map is modelled as an
association list in insertion order with last-write-wins updates; the map
iteration order of Go is unspecified, and no property proved here depends on
the order in which parameters are listed. -/
structure Query where
  select : List Field
  from_ : String
  where_ : List Condition
  orderBy : List Ordering
  limit : Int
  parameters : List (String × String)
  deriving DecidableEq, Repr

/-- Rendering of date ranges (Go `DateRange.String`): the table key mapping
to the given enumerant, or `CUSTOM`. -/
def dateRangeToString (d : DateRange) : String :=
  match (DateRangeKeywords.find? (fun p => p.2 = d)).map (fun p => p.1) with
  | some k => k
  | none => "CUSTOM"

/-- Rendering of the numeric payload.  Go prints the `float64` with `%v`;
the exact float formatting is not modelled (no claim exercises it), the
rational is rendered directly. -/
def numberToString (n : Rat) : String :=
  if n.den = 1 then toString n.num else toString n

/-- Rendering of values (Go `Value.String`).  Note that strings are wrapped
in single quotes without escaping, and lists are joined inside parentheses. -/
def valueToString (v : Value) : String :=
  match v.type with
  | .valueString => squote.toString ++ v.str ++ squote.toString
  | .valueNumber => numberToString v.number
  | .valueList => "(" ++ String.intercalate ", " v.list ++ ")"
  | .valueDateRange => dateRangeToString v.dateRange
  | .valueNull => "NULL"

/-- Rendering of one parameter pair (Go `fmt.Sprintf("%s = %s", k, v)`). -/
def paramToString (p : String × String) : String :=
  p.1 ++ " = " ++ p.2

/-- Rendering of one ordering (field, plus ` DESC` when descending). -/
def orderingToString (o : Ordering) : String :=
  o.field ++ (if o.direction = .desc then " DESC" else "")

/-- Rendering of one condition (`field op value`). -/
def conditionToString (c : Condition) : String :=
  c.field ++ " " ++ operatorToString c.operator ++ " " ++ valueToString c.value

/-- The pretty-printer (Go `Query.String`). -/
def queryToString (q : Query) : String :=
  "SELECT " ++ String.intercalate ", " (q.select.map (fun f => f.name)) ++
  " FROM " ++ q.from_ ++
  (if q.where_ = [] then ""
   else " WHERE " ++ String.intercalate " AND " (q.where_.map conditionToString)) ++
  (if q.orderBy = [] then ""
   else " ORDER BY " ++ String.intercalate ", " (q.orderBy.map orderingToString)) ++
  (if 0 < q.limit then " LIMIT " ++ toString q.limit else "") ++
  (if q.parameters = [] then ""
   else " PARAMETERS " ++ String.intercalate ", " (q.parameters.map paramToString))

/-! Numeric conversions used by the parser. -/

/-- Value of a digit list, most significant first. -/
def digitsVal (ds : List Char) : Nat :=
  ds.foldl (fun acc c => acc * 10 + (c.toNat - '0'.toNat)) 0

/-- Go `strconv.Atoi`: optional sign, one or more ASCII digits, nothing else,
with the result required to fit in a signed 64-bit integer. -/
def goAtoi (s : String) : Option Int :=
  let neg : Bool := s.data.head? = some '-'
  let ds : List Char :=
    if s.data.head? = some '-' || s.data.head? = some '+' then s.data.tail else s.data
  if ds = [] then none
  else if ds.all isDigitC then
    let n : Int := if neg then -(digitsVal ds : Int) else (digitsVal ds : Int)
    if -(2 ^ 63) ≤ n ∧ n ≤ 2 ^ 63 - 1 then some n else none
  else none

/-- Go `strconv.ParseFloat`, restricted to the decimal forms the lexer can
emit (optional sign, digits, optional dot and digits, at least one digit in
total); on those forms Go succeeds exactly when a digit is present, and the
value is modelled as the exact decimal rational. -/
def goParseFloat (s : String) : Option Rat :=
  let neg : Bool := s.data.head? = some '-'
  let r0 : List Char :=
    if s.data.head? = some '-' || s.data.head? = some '+' then s.data.tail else s.data
  let d1 := r0.takeWhile isDigitC
  let r1 := r0.dropWhile isDigitC
  let d2 : List Char := if r1.head? = some '.' then r1.tail.takeWhile isDigitC else []
  let r2 : List Char := if r1.head? = some '.' then r1.tail.dropWhile isDigitC else r1
  if r2 = [] ∧ (d1 ≠ [] ∨ d2 ≠ []) then
    let mag : Rat := (digitsVal d1 : Rat) + (digitsVal d2 : Rat) / ((10 : Rat) ^ d2.length)
    some (if neg then -mag else mag)
  else none

/-! The parser (`parser.go`).  The Go parser walks a token slice with an
index; here each function consumes a prefix of the token list and returns the
remainder.  Go `Parser.current` past the end of the slice yields the zero
`Token` (end-of-input, empty value, position 0); `Parser.advance` is a no-op
there. -/

/-- Go `Parser.current`. -/
def current (ts : List Token) : Token :=
  ts.headD ⟨.tEOF, "", 0, 0⟩

/-- Go `Parser.advance`. -/
def advanceL (ts : List Token) : List Token :=
  ts.tail

/-- Go `Parser.check`. -/
def check (t : TokenType) (ts : List Token) : Bool :=
  (current ts).type = t

/-- Go `Parser.error`: a parse error positioned at the current token. -/
@[reducible] def perr (msg : String) (ts : List Token) : ParseError :=
  ⟨msg, (current ts).line, (current ts).column⟩

/-- Message reported when a fuel-indexed parser loop runs out of fuel; the
entry point supplies enough fuel for this never to fire. -/
def fuelMsg : String := "parser fuel exhausted"

/-- Dotted-name loop of Go `Parser.parseField` (`for p.match(TokenDot)`). -/
def parseFieldDots : Nat → List String → List Token →
    Except ParseError (Field × List Token)
  | 0, _, ts => .error (perr fuelMsg ts)
  | fuel + 1, parts, ts =>
    if check .tDot ts then
      let ts1 := advanceL ts
      if check .tIdent ts1 then
        parseFieldDots fuel (parts ++ [(current ts1).value]) (advanceL ts1)
      else
        .error (perr ("expected field name after " ++ squote.toString ++ "." ++ squote.toString) ts1)
    else
      .ok (⟨String.intercalate "." parts⟩, ts)

/-- Go `Parser.parseField`. -/
def parseField (fuel : Nat) (ts : List Token) :
    Except ParseError (Field × List Token) :=
  if check .tIdent ts then
    parseFieldDots fuel [(current ts).value] (advanceL ts)
  else
    .error (perr "expected field name" ts)

/-- Loop of Go `Parser.parseFieldList`. -/
def parseFieldListAux : Nat → List Field → List Token →
    Except ParseError (List Field × List Token)
  | 0, _, ts => .error (perr fuelMsg ts)
  | fuel + 1, acc, ts =>
    match parseField fuel ts with
    | .error e => .error e
    | .ok (f, ts1) =>
      if check .tComma ts1 then parseFieldListAux fuel (acc ++ [f]) (advanceL ts1)
      else .ok (acc ++ [f], ts1)

/-- Go `Parser.parseFieldList`, including its (unreachable) emptiness check. -/
def parseFieldList (fuel : Nat) (ts : List Token) :
    Except ParseError (List Field × List Token) :=
  match parseFieldListAux fuel [] ts with
  | .error e => .error e
  | .ok (fields, ts1) =>
    if fields = [] then .error (perr "SELECT must contain at least one field" ts1)
    else .ok (fields, ts1)

/-- Go `Parser.parseOperator`. -/
def parseOperator (ts : List Token) :
    Except ParseError (Operator × List Token) :=
  match (current ts).type with
  | .tEq => .ok (.opEq, advanceL ts)
  | .tNeq => .ok (.opNeq, advanceL ts)
  | .tGt => .ok (.opGt, advanceL ts)
  | .tGte => .ok (.opGte, advanceL ts)
  | .tLt => .ok (.opLt, advanceL ts)
  | .tLte => .ok (.opLte, advanceL ts)
  | .tIn => .ok (.opIn, advanceL ts)
  | .tNot =>
    let ts1 := advanceL ts
    if check .tIn ts1 then .ok (.opNotIn, advanceL ts1)
    else if check .tLike ts1 then .ok (.opNotLike, advanceL ts1)
    else if check .tRegexpMatch ts1 then .ok (.opNotRegexpMatch, advanceL ts1)
    else .error (perr "expected IN, LIKE, or REGEXP_MATCH after NOT" ts1)
  | .tLike => .ok (.opLike, advanceL ts)
  | .tContains =>
    let ts1 := advanceL ts
    if check .tAny ts1 then .ok (.opContainsAny, advanceL ts1)
    else if check .tAll ts1 then .ok (.opContainsAll, advanceL ts1)
    else if check .tNone ts1 then .ok (.opContainsNone, advanceL ts1)
    else .error (perr "expected ANY, ALL, or NONE after CONTAINS" ts1)
  | .tIs =>
    let ts1 := advanceL ts
    if check .tNot ts1 then
      let ts2 := advanceL ts1
      if check .tNull ts2 then .ok (.opIsNotNull, advanceL ts2)
      else .error (perr "expected NULL after IS NOT" ts2)
    else if check .tNull ts1 then .ok (.opIsNull, advanceL ts1)
    else .error (perr "expected NULL or NOT NULL after IS" ts1)
  | .tDuring => .ok (.opDuring, advanceL ts)
  | .tBetween => .ok (.opBetween, advanceL ts)
  | .tRegexpMatch => .ok (.opRegexpMatch, advanceL ts)
  | other => .error (perr ("expected operator, got " ++ tokenTypeToString other) ts)

/-- Go `Parser.parseSimpleValue`: a string, number or identifier token,
captured as its raw textual value. -/
def parseSimpleValue (ts : List Token) :
    Except ParseError (String × List Token) :=
  match (current ts).type with
  | .tString => .ok ((current ts).value, advanceL ts)
  | .tNumber => .ok ((current ts).value, advanceL ts)
  | .tIdent => .ok ((current ts).value, advanceL ts)
  | other => .error (perr ("expected value, got " ++ tokenTypeToString other) ts)

/-- Loop of Go `Parser.parseList`. -/
def parseListAux : Nat → List String → List Token →
    Except ParseError (List String × List Token)
  | 0, _, ts => .error (perr fuelMsg ts)
  | fuel + 1, acc, ts =>
    match parseSimpleValue ts with
    | .error e => .error e
    | .ok (v, ts1) =>
      if check .tComma ts1 then parseListAux fuel (acc ++ [v]) (advanceL ts1)
      else .ok (acc ++ [v], ts1)

/-- Go `Parser.parseList`: a parenthesised, comma-separated list. -/
def parseList (fuel : Nat) (ts : List Token) :
    Except ParseError (Value × List Token) :=
  if check .tLParen ts then
    match parseListAux fuel [] (advanceL ts) with
    | .error e => .error e
    | .ok (items, ts1) =>
      if check .tRParen ts1 then .ok (listValue items, advanceL ts1)
      else .error (perr ("expected " ++ squote.toString ++ ")" ++ squote.toString ++ " after list") ts1)
  else
    .error (perr ("expected " ++ squote.toString ++ "(" ++ squote.toString ++ " before list") ts)

/-- Go `Parser.parseValue`: the shape of the value is selected by the
operator already parsed. -/
def parseValue (fuel : Nat) (op : Operator) (ts : List Token) :
    Except ParseError (Value × List Token) :=
  if op = .opDuring then
    if check .tDateRange ts then
      match lookupDR (current ts).value with
      | some dr => .ok (dateRangeValue dr, advanceL ts)
      | none => .error (perr ("unknown date range: " ++ (current ts).value) ts)
    else
      .error (perr "expected date range keyword after DURING" ts)
  else if op = .opBetween then
    match parseSimpleValue ts with
    | .error e => .error e
    | .ok (start, ts1) =>
      if check .tAnd ts1 then
        match parseSimpleValue (advanceL ts1) with
        | .error e => .error e
        | .ok (stop, ts2) => .ok (listValue [start, stop], ts2)
      else .error (perr "expected AND in BETWEEN clause" ts1)
  else if op = .opIn || op = .opNotIn || op = .opContainsAny ||
          op = .opContainsAll || op = .opContainsNone then
    parseList fuel ts
  else
    match (current ts).type with
    | .tString => .ok (strValue (current ts).value, advanceL ts)
    | .tNumber =>
      match goParseFloat (current ts).value with
      | none => .error (perr ("invalid number: " ++ (current ts).value) ts)
      | some n => .ok (numValue n, advanceL ts)
    | .tIdent => .ok (strValue (current ts).value, advanceL ts)
    | other => .error (perr ("expected value, got " ++ tokenTypeToString other) ts)

/-- Go `Parser.parseCondition`. -/
def parseCondition (fuel : Nat) (ts : List Token) :
    Except ParseError (Condition × List Token) :=
  match parseField fuel ts with
  | .error e => .error e
  | .ok (f, ts1) =>
    match parseOperator ts1 with
    | .error e => .error e
    | .ok (op, ts2) =>
      if op = .opIsNull || op = .opIsNotNull then
        .ok (⟨f.name, op, nullValue⟩, ts2)
      else
        match parseValue fuel op ts2 with
        | .error e => .error e
        | .ok (v, ts3) => .ok (⟨f.name, op, v⟩, ts3)

/-- Loop of Go `Parser.parseConditions` (`for { ...; if !p.match(TokenAnd) break }`). -/
def parseConditionsAux : Nat → List Condition → List Token →
    Except ParseError (List Condition × List Token)
  | 0, _, ts => .error (perr fuelMsg ts)
  | fuel + 1, acc, ts =>
    match parseCondition fuel ts with
    | .error e => .error e
    | .ok (c, ts1) =>
      if check .tAnd ts1 then parseConditionsAux fuel (acc ++ [c]) (advanceL ts1)
      else .ok (acc ++ [c], ts1)

/-- Go `Parser.parseConditions`. -/
def parseConditions (fuel : Nat) (ts : List Token) :
    Except ParseError (List Condition × List Token) :=
  parseConditionsAux fuel [] ts

/-- Loop of Go `Parser.parseOrderings`. -/
def parseOrderingsAux : Nat → List Ordering → List Token →
    Except ParseError (List Ordering × List Token)
  | 0, _, ts => .error (perr fuelMsg ts)
  | fuel + 1, acc, ts =>
    match parseField fuel ts with
    | .error e => .error e
    | .ok (f, ts1) =>
      let (dir, ts2) : Direction × List Token :=
        if check .tDesc ts1 then (.desc, advanceL ts1)
        else if check .tAsc ts1 then (.asc, advanceL ts1)
        else (.asc, ts1)
      if check .tComma ts2 then parseOrderingsAux fuel (acc ++ [⟨f.name, dir⟩]) (advanceL ts2)
      else .ok (acc ++ [⟨f.name, dir⟩], ts2)

/-- Go `Parser.parseOrderings`. -/
def parseOrderings (fuel : Nat) (ts : List Token) :
    Except ParseError (List Ordering × List Token) :=
  parseOrderingsAux fuel [] ts

/-- Last-write-wins update of the parameter association list, modelling the
Go map assignment `params[name] = val`. -/
def paramsInsert (name val : String) : List (String × String) → List (String × String)
  | [] => [(name, val)]
  | (k, v) :: rest =>
    if k = name then (k, val) :: rest else (k, v) :: paramsInsert name val rest

/-- Loop of Go `Parser.parseParameters`. -/
def parseParametersAux : Nat → List (String × String) → List Token →
    Except ParseError (List (String × String) × List Token)
  | 0, _, ts => .error (perr fuelMsg ts)
  | fuel + 1, acc, ts =>
    if check .tIdent ts then
      let name := (current ts).value
      let ts1 := advanceL ts
      if check .tEq ts1 then
        match parseSimpleValue (advanceL ts1) with
        | .error e => .error e
        | .ok (v, ts2) =>
          let acc1 := paramsInsert name v acc
          if check .tComma ts2 then parseParametersAux fuel acc1 (advanceL ts2)
          else .ok (acc1, ts2)
      else .error (perr ("expected " ++ squote.toString ++ "=" ++ squote.toString ++ " after parameter name") ts1)
    else .error (perr "expected parameter name" ts)

/-- Go `Parser.parseParameters`. -/
def parseParameters (fuel : Nat) (ts : List Token) :
    Except ParseError (List (String × String) × List Token) :=
  parseParametersAux fuel [] ts

/-- Optional WHERE clause of Go `Parser.parseQuery` (`if p.match(TokenWhere)`). -/
def parseWhereOpt (fuel : Nat) (ts : List Token) :
    Except ParseError (List Condition × List Token) :=
  if check .tWhere ts then parseConditions fuel (advanceL ts)
  else .ok ([], ts)

/-- Optional ORDER BY clause of Go `Parser.parseQuery`. -/
def parseOrderByOpt (fuel : Nat) (ts : List Token) :
    Except ParseError (List Ordering × List Token) :=
  if check .tOrderBy ts then parseOrderings fuel (advanceL ts)
  else .ok ([], ts)

/-- Optional LIMIT clause of Go `Parser.parseQuery` (lines 72 to 85 of the
parser source): a number token whose `Atoi` conversion must be strictly
positive. -/
def parseLimitOpt (ts : List Token) :
    Except ParseError (Int × List Token) :=
  if check .tLimit ts then
    let ts1 := advanceL ts
    if check .tNumber ts1 then
      match goAtoi (current ts1).value with
      | none => .error (perr ("invalid LIMIT value: " ++ (current ts1).value) ts1)
      | some n =>
        if n ≤ 0 then .error (perr "LIMIT must be a positive integer" ts1)
        else .ok (n, advanceL ts1)
    else .error (perr "expected number after LIMIT" ts1)
  else .ok (0, ts)

/-- Optional PARAMETERS clause of Go `Parser.parseQuery`. -/
def parseParametersOpt (fuel : Nat) (ts : List Token) :
    Except ParseError (List (String × String) × List Token) :=
  if check .tParameters ts then parseParameters fuel (advanceL ts)
  else .ok ([], ts)

/-- Go `Parser.parseQuery`: SELECT and FROM are required, the remaining
clauses optional, and the stream must then be at end-of-input. -/
def parseQuery (tokens : List Token) : Except ParseError Query :=
  let fuel := tokens.length + 1
  if check .tSelect tokens then
    match parseFieldList fuel (advanceL tokens) with
    | .error e => .error e
    | .ok (fields, ts1) =>
      if check .tFrom ts1 then
        let ts2 := advanceL ts1
        if check .tIdent ts2 then
          let fromName := (current ts2).value
          let ts3 := advanceL ts2
          match parseWhereOpt fuel ts3 with
          | .error e => .error e
          | .ok (conds, ts4) =>
            match parseOrderByOpt fuel ts4 with
            | .error e => .error e
            | .ok (ords, ts5) =>
              match parseLimitOpt ts5 with
              | .error e => .error e
              | .ok (lim, ts6) =>
                match parseParametersOpt fuel ts6 with
                | .error e => .error e
                | .ok (params, ts7) =>
                  if check .tEOF ts7 then
                    .ok ⟨fields, fromName, conds, ords, lim, params⟩
                  else
                    .error (perr ("unexpected token: " ++ (current ts7).value) ts7)
        else .error (perr "expected resource name after FROM" ts2)
      else .error (perr "expected FROM clause" ts1)
  else .error (perr "expected SELECT clause" tokens)

/-- The entry point Go `Parse`: lex, then parse. -/
def Parse (input : String) : Except ParseError Query :=
  match Tokenize input with
  | (_, some e) => .error e
  | (tokens, none) => parseQuery tokens

/-! The validator (`validator.go`). -/

/-- Validation errors (`errors.go`): message plus optional field tag (the Go
zero value, the empty string, means untagged). -/
structure ValidationError where
  message : String
  field : String
  deriving DecidableEq, Repr

/-- The `KnownResources` set of the validator source. -/
def KnownResources : List String :=
  ["campaign", "ad_group", "ad_group_ad", "ad_group_criterion", "asset",
   "campaign_asset", "campaign_budget", "campaign_criterion", "customer",
   "customer_client", "change_event", "change_status", "click_view",
   "conversion_action", "geo_target_constant", "keyword_view", "label",
   "location_view", "media_file", "mobile_app_category_constant",
   "mobile_device_constant", "performance_max_placement_view",
   "product_bidding_category_constant", "search_term_view",
   "shopping_performance_view", "topic_constant", "user_list"]

/-- The `SingleDayResources` set of the validator source. -/
def SingleDayResources : List String :=
  ["click_view"]

/-- The regular expression `^\d{4}-\d{2}-\d{2}$` of the validator
(`datePattern`), as a direct decision procedure. -/
def isDateFormat (s : String) : Bool :=
  match s.data with
  | [a, b, c, d, h1, e, f, h2, g, h] =>
    isDigitC a && isDigitC b && isDigitC c && isDigitC d && h1 = '-' &&
    isDigitC e && isDigitC f && h2 = '-' && isDigitC g && isDigitC h
  | _ => false

/-- Go `isDateRangeKeyword`: case-insensitive membership in the date-range
keyword table. -/
def isDateRangeKeyword (s : String) : Bool :=
  (lookupDR (asciiUpperString s)).isSome

/-- Go `strings.HasPrefix`, as a byte-level prefix test. -/
def strHasPre (pre s : String) : Bool :=
  pre.data.isPrefixOf s.data

/-- Validator configuration (Go `Validator`). -/
structure Validator where
  allowUnknownResources : Bool
  requireMetricDateContext : Bool
  deriving DecidableEq, Repr

/-- Go `NewValidator`: permissive about unknown resources, strict about
metric date context. -/
def NewValidator : Validator :=
  ⟨true, true⟩

/-- Go `Validator.validateFieldName`. -/
def validateFieldName (name : String) : Option ValidationError :=
  if name = "" then some ⟨"field name cannot be empty", ""⟩ else none

/-- Field-name loop of Go `Validator.validateSelect`. -/
def validateSelectFields : List Field → Option ValidationError
  | [] => none
  | f :: rest =>
    match validateFieldName f.name with
    | some e => some e
    | none => validateSelectFields rest

/-- Go `Validator.validateSelect`. -/
def validateSelect (q : Query) : Option ValidationError :=
  if q.select = [] then some ⟨"SELECT must contain at least one field", ""⟩
  else validateSelectFields q.select

/-- Go `Validator.validateFrom`. -/
def validateFrom (v : Validator) (q : Query) : Option ValidationError :=
  if q.from_ = "" then some ⟨"FROM clause is required", ""⟩
  else if ¬ v.allowUnknownResources ∧ q.from_ ∉ KnownResources then
    some ⟨"unknown resource: " ++ q.from_, "FROM"⟩
  else none

/-- Element loop of the BETWEEN check in Go `Validator.validateWhere`. -/
def validateBetweenListDates (field : String) : List String → Option ValidationError
  | [] => none
  | d :: rest =>
    if ¬ isDateFormat d ∧ ¬ isDateRangeKeyword d then
      some ⟨"invalid date format (expected YYYY-MM-DD): " ++ d, field⟩
    else validateBetweenListDates field rest

/-- Condition loop of Go `Validator.validateWhere`. -/
def validateWhereConds : List Condition → Option ValidationError
  | [] => none
  | cond :: rest =>
    match validateFieldName cond.field with
    | some e => some e
    | none =>
      if cond.operator = .opDuring ∧ cond.value.type ≠ .valueDateRange then
        some ⟨"DURING requires a date range keyword", cond.field⟩
      else if cond.operator = .opBetween then
        if cond.value.type ≠ .valueList ∨ cond.value.list.length ≠ 2 then
          some ⟨"BETWEEN requires two values", cond.field⟩
        else
          match validateBetweenListDates cond.field cond.value.list with
          | some e => some e
          | none => validateWhereConds rest
      else validateWhereConds rest

/-- Go `Validator.validateWhere`. -/
def validateWhere (q : Query) : Option ValidationError :=
  validateWhereConds q.where_

/-- Go `Validator.validateLimit`. -/
def validateLimit (q : Query) : Option ValidationError :=
  if q.limit < 0 then some ⟨"LIMIT must be non-negative", ""⟩ else none

/-- Condition scan of Go `Validator.validateSingleDayResource`: the first
condition on `segments.date` whose operator is DURING, `=` or BETWEEN decides
the outcome; other conditions (even on `segments.date`) are passed over. -/
def singleDayScan : List Condition → Option ValidationError
  | [] =>
    some ⟨"click_view requires segments.date in WHERE clause with single-day range", "FROM"⟩
  | cond :: rest =>
    if cond.field = "segments.date" then
      if cond.operator = .opDuring then
        if cond.value.dateRange = .today ∨ cond.value.dateRange = .yesterday then none
        else some ⟨"click_view requires single-day date range (TODAY or YESTERDAY)", "segments.date"⟩
      else if cond.operator = .opEq then none
      else if cond.operator = .opBetween then
        match cond.value.list with
        | [x, y] => if x = y then none
                    else some ⟨"click_view requires single-day date range", "segments.date"⟩
        | _ => some ⟨"click_view requires single-day date range", "segments.date"⟩
      else singleDayScan rest
    else singleDayScan rest

/-- Go `Validator.validateSingleDayResource`. -/
def validateSingleDayResource (q : Query) : Option ValidationError :=
  if q.from_ ∈ SingleDayResources then singleDayScan q.where_ else none

/-- Go `Validator.validateMetricDateContext`. -/
def validateMetricDateContext (v : Validator) (q : Query) : Option ValidationError :=
  if ¬ v.requireMetricDateContext then none
  else
    let hasMetrics := q.select.any (fun f => strHasPre "metrics." f.name)
    if ¬ hasMetrics then none
    else
      let hasDateContext :=
        q.select.any (fun f => f.name = "segments.date") ||
        q.where_.any (fun c => c.field = "segments.date")
      if ¬ hasDateContext then
        some ⟨"metrics require date context (segments.date in SELECT or WHERE)", ""⟩
      else none

/-- Go `Validator.Validate`: the rules in order, first failure wins. -/
def Validate (v : Validator) (q : Query) : Option ValidationError :=
  match validateSelect q with
  | some e => some e
  | none =>
    match validateFrom v q with
    | some e => some e
    | none =>
      match validateWhere q with
      | some e => some e
      | none =>
        match validateLimit q with
        | some e => some e
        | none =>
          match validateSingleDayResource q with
          | some e => some e
          | none => validateMetricDateContext v q

/-- Structured outcome of Go `ValidateQuery`: parse, then validate with the
default validator. -/
inductive QueryOutcome where
  | ok (q : Query)
  | parseFailure (e : ParseError)
  | invalid (e : ValidationError)
  deriving DecidableEq, Repr

/-- Go `ValidateQuery`. -/
def ValidateQuery (input : String) : QueryOutcome :=
  match Parse input with
  | .error e => .parseFailure e
  | .ok q =>
    match Validate NewValidator q with
    | some e => .invalid e
    | none => .ok q

/-! Claim C1.  The round-trip property fails: the pretty-printer renders a
BETWEEN value as a parenthesised list, which the parser rejects. -/

/-- C1: the spec asserts that re-parsing the printed form of any parsed query
succeeds and yields a structurally equal query, in particular for BETWEEN
conditions.  The code violates this: a parsed BETWEEN condition prints as
`c BETWEEN (x, y)` — not valid GAQL — and re-parsing fails with
`expected value, got (`. -/
theorem roundtrip_fails_on_between :
    Parse "SELECT a FROM b WHERE c BETWEEN \x27x\x27 AND \x27y\x27" =
      .ok ⟨[⟨"a"⟩], "b", [⟨"c", .opBetween, listValue ["x", "y"]⟩], [], 0, []⟩ ∧
    queryToString ⟨[⟨"a"⟩], "b", [⟨"c", .opBetween, listValue ["x", "y"]⟩], [], 0, []⟩ =
      "SELECT a FROM b WHERE c BETWEEN (x, y)" ∧
    Parse "SELECT a FROM b WHERE c BETWEEN (x, y)" =
      .error ⟨"expected value, got (", 1, 33⟩ :=
  ⟨by rfl, by rfl, by rfl⟩

/-! Claim C6.  A minus sign not followed by a digit is not a lexical error:
`readNumber` happily returns the token `-` of kind number. -/

/-- C6 counterexample: lexing the single character `-` produces a number
token whose value is `-` and no lexical error, contradicting the claim that
a lone minus is reported as a lexical error and that no number token
consists of `-` alone. -/
theorem lone_minus_is_number_token :
    (Tokenize "-").1 = [⟨.tNumber, "-", 1, 1⟩, ⟨.tEOF, "", 1, 2⟩] ∧
    (Tokenize "-").2 = none :=
  ⟨by rfl, by rfl⟩

/-! Claim C7.  The ORDER BY fusion does not check that a non-identifier
character follows the two letters: `ORDER BYTES` fuses. -/

/-- C7 counterexample: lexing `ORDER BYTES` yields an `ORDER BY` token
followed by the identifier `TES`, not the two identifiers `ORDER` and
`BYTES` the claim predicts. -/
theorem order_bytes_fuses_into_order_by :
    (Tokenize "ORDER BYTES").1 =
      [⟨.tOrderBy, "ORDER BY", 1, 1⟩, ⟨.tIdent, "TES", 1, 9⟩, ⟨.tEOF, "", 1, 12⟩] ∧
    (Tokenize "ORDER BYTES").2 = none :=
  ⟨by rfl, by rfl⟩

/-! Claim C8.  A non-date-range token after DURING is rejected with the
message `expected date range keyword after DURING`; the message `unknown
date range` claimed by the spec sits in an unreachable branch (see C9). -/

/-- C8 counterexample: parsing a query whose DURING operand is an ordinary
identifier fails with the message `expected date range keyword after DURING`
at the offending token, not with the claimed message `unknown date range`. -/
theorem during_unknown_keyword_actual_message :
    Parse "SELECT a FROM b WHERE c DURING foo" =
      .error ⟨"expected date range keyword after DURING", 1, 32⟩ ∧
    ("expected date range keyword after DURING" : String) ≠ "unknown date range" :=
  ⟨by rfl, by decide⟩

/-- C8 amended: whenever the token after a parsed DURING operator is not of
the date-range kind, `parseValue` fails with the message `expected date
range keyword after DURING`, positioned at the offending token. -/
theorem during_requires_daterange_token (fuel : Nat) (ts : List Token)
    (h : (current ts).type ≠ .tDateRange) :
    parseValue fuel .opDuring ts =
      .error ⟨"expected date range keyword after DURING",
        (current ts).line, (current ts).column⟩ := by
  unfold parseValue
  simp [check, h, perr]

/-- Witness for the amended C8 theorem at a concrete token. -/
theorem during_requires_daterange_token_witness :
    parseValue 0 .opDuring [⟨.tIdent, "foo", 1, 32⟩] =
      .error ⟨"expected date range keyword after DURING", 1, 32⟩ :=
  during_requires_daterange_token 0 [⟨.tIdent, "foo", 1, 32⟩] (by decide)

/-! Shape of the tokens the lexer can emit.  These facts feed the
parse-success invariants (C2), the number-token shape (C6) and the
reachability analysis of the `unknown date range` message (C9). -/

/-- Every member of a list of digits read by `takeWhile` is a digit. -/
def allDigits (l : List Char) : Prop := ∀ c ∈ l, isDigitC c = true

/-- Shape of a number-token value as `readNumber` builds it: an optional
minus sign, a digit run, and an optional dot followed by a digit run; the
whole value is non-empty and begins with a minus sign or a digit.  Note that
each digit run may be empty. -/
def numShape (s : String) : Prop :=
  ∃ sign d1 frac : List Char,
    (sign = [] ∨ sign = ['-']) ∧ allDigits d1 ∧
    (frac = [] ∨ ∃ d2 : List Char, allDigits d2 ∧ frac = '.' :: d2) ∧
    s.data = sign ++ d1 ++ frac ∧ s.data ≠ [] ∧
    (∀ c, s.data.head? = some c → c = '-' ∨ isDigitC c = true)

/-- The per-token invariant maintained by the lexer: identifier tokens carry
a non-empty value, date-range tokens carry a key of the date-range table,
and number tokens have the `readNumber` shape. -/
def TokOK (t : Token) : Prop :=
  (t.type = .tIdent → t.value ≠ "") ∧
  (t.type = .tDateRange → (lookupDR t.value).isSome = true) ∧
  (t.type = .tNumber → numShape t.value)

/-- Tokens of any other kind satisfy the invariant vacuously. -/
theorem tokOK_other (t : Token) (h1 : t.type ≠ .tIdent) (h2 : t.type ≠ .tDateRange)
    (h3 : t.type ≠ .tNumber) : TokOK t :=
  ⟨fun h => absurd h h1, fun h => absurd h h2, fun h => absurd h h3⟩

/-- The token built by `readNumber` is a number token. -/
theorem readNumber_type (rest : List Char) (line col : Nat) :
    (readNumber rest line col).1.type = .tNumber := rfl

/-- The value built by `readNumber` has the number shape whenever the first
character is a minus sign or a digit — which is the only way the lexer calls
it. -/
theorem readNumber_shape (rest : List Char) (line col : Nat)
    (h : rest.head? = some '-' ∨ ∃ c, rest.head? = some c ∧ isDigitC c = true) :
    numShape (readNumber rest line col).1.value := by
  unfold readNumber
  by_cases hm : rest.head? = some '-'
  · simp only [hm, if_true]
    by_cases hdot : (rest.tail.dropWhile isDigitC).head? = some '.'
    · refine ⟨['-'], rest.tail.takeWhile isDigitC,
        '.' :: (rest.tail.dropWhile isDigitC).tail.takeWhile isDigitC,
        Or.inr rfl, fun x hx => List.mem_takeWhile_imp hx,
        Or.inr ⟨_, fun x hx => List.mem_takeWhile_imp hx, rfl⟩, ?_, ?_, ?_⟩
      · simp [hdot]
      · simp [hdot]
      · intro x hx
        simp [hdot] at hx
        subst hx
        exact Or.inl rfl
    · refine ⟨['-'], rest.tail.takeWhile isDigitC, [],
        Or.inr rfl, fun x hx => List.mem_takeWhile_imp hx, Or.inl rfl, ?_, ?_, ?_⟩
      · simp [hdot]
      · simp [hdot]
      · intro x hx
        simp [hdot] at hx
        subst hx
        exact Or.inl rfl
  · obtain ⟨c, hc, hd⟩ := h.resolve_left hm
    cases rest with
    | nil => simp at hc
    | cons c0 r =>
      simp only [List.head?_cons, Option.some.injEq] at hc
      subst hc
      have htake : (c0 :: r).takeWhile isDigitC = c0 :: r.takeWhile isDigitC :=
        List.takeWhile_cons_of_pos hd
      simp only [hm, if_false, Bool.false_eq_true]
      by_cases hdot : ((c0 :: r).dropWhile isDigitC).head? = some '.'
      · refine ⟨[], (c0 :: r).takeWhile isDigitC,
          '.' :: ((c0 :: r).dropWhile isDigitC).tail.takeWhile isDigitC,
          Or.inl rfl, fun x hx => List.mem_takeWhile_imp hx,
          Or.inr ⟨_, fun x hx => List.mem_takeWhile_imp hx, rfl⟩, ?_, ?_, ?_⟩
        · simp [hdot]
        · simp [hdot, htake]
        · intro x hx
          simp [hdot, htake] at hx
          subst hx
          exact Or.inr hd
      · refine ⟨[], (c0 :: r).takeWhile isDigitC, [],
          Or.inl rfl, fun x hx => List.mem_takeWhile_imp hx, Or.inl rfl, ?_, ?_, ?_⟩
        · simp [hdot]
        · simp [hdot, htake]
        · intro x hx
          simp [hdot, htake] at hx
          subst hx
          exact Or.inr hd

/-- The token built by `readStringAux` is a string or an error token. -/
theorem readStringAux_type (quote : Char) (sl sc : Nat) :
    ∀ (l : List Char) (acc : String) (line col : Nat),
      (readStringAux quote sl sc l acc line col).1.type = .tString ∨
      (readStringAux quote sl sc l acc line col).1.type = .tError
  | [], _, _, _ => Or.inr rfl
  | [c], acc, line, col => by
    by_cases hc : c = quote
    · left; simp [readStringAux, hc]
    · right; simp [readStringAux, hc]
  | c :: d :: rest, acc, line, col => by
    by_cases hc : c = quote
    · left; simp [readStringAux, hc]
    · by_cases hb : c = '\\'
      · subst hb
        have := readStringAux_type quote sl sc rest (acc.push (escDecode d))
          (advPos d (advPos '\\' line col).1 (advPos '\\' line col).2).1
          (advPos d (advPos '\\' line col).1 (advPos '\\' line col).2).2
        simpa [readStringAux, hc] using this
      · have := readStringAux_type quote sl sc (d :: rest) (acc.push c)
          (advPos c line col).1 (advPos c line col).2
        simpa [readStringAux, hc, hb] using this

/-- Keyword-table values are never the date-range or number kinds. -/
theorem lookupKw_not_special (s : String) (tt : TokenType) (h : lookupKw s = some tt) :
    tt ≠ .tDateRange ∧ tt ≠ .tNumber := by
  unfold lookupKw at h
  cases hf : Keywords.find? (fun p => p.1 = s) with
  | none => rw [hf] at h; simp at h
  | some pr =>
    rw [hf] at h
    simp at h
    have hmem : pr ∈ Keywords := List.mem_of_find?_eq_some hf
    have : ∀ p ∈ Keywords, p.2 ≠ TokenType.tDateRange ∧ p.2 ≠ TokenType.tNumber := by decide
    rw [← h]
    exact this pr hmem

/-- A non-empty character list makes a non-empty string. -/
theorem mk_ne_empty (l : List Char) (h : l ≠ []) : (⟨l⟩ : String) ≠ "" := by
  intro he
  have : l = [] := congrArg String.data he
  exact h this

/-- The token built by `readIdentOrKeyword` satisfies the invariant whenever
the input starts with a letter or underscore — which is the only way the
lexer calls it. -/
theorem readIdentOrKeyword_tokOK (rest : List Char) (line col : Nat)
    (h : ∃ c r, rest = c :: r ∧ (isLetterC c = true ∨ c = '_')) :
    TokOK (readIdentOrKeyword rest line col).1 := by
  obtain ⟨c, r, hr, hc⟩ := h
  have hic : isIdentChar c = true := by
    rcases hc with hc | hc <;> simp [isIdentChar, hc]
  have hword : rest.takeWhile isIdentChar = c :: r.takeWhile isIdentChar := by
    rw [hr]; exact List.takeWhile_cons_of_pos hic
  have hwne : rest.takeWhile isIdentChar ≠ [] := by rw [hword]; simp
  have hvalne : (⟨rest.takeWhile isIdentChar⟩ : String) ≠ "" := mk_ne_empty _ hwne
  have hupne : asciiUpperString ⟨rest.takeWhile isIdentChar⟩ ≠ "" :=
    mk_ne_empty ((rest.takeWhile isIdentChar).map asciiUpperChar) (by rw [hword]; simp)
  simp only [readIdentOrKeyword]
  by_cases ho : asciiUpperString ⟨rest.takeWhile isIdentChar⟩ = "ORDER"
  · rw [if_pos ho]
    rcases hsk : skipWhitespace (rest.dropWhile isIdentChar) line
        (col + (rest.takeWhile isIdentChar).length) with ⟨r2, l2, c2⟩
    cases r2 with
    | nil => exact ⟨fun _ => hvalne, fun hk => by simp at hk, fun hk => by simp at hk⟩
    | cons b r2a =>
      cases r2a with
      | nil => exact ⟨fun _ => hvalne, fun hk => by simp at hk, fun hk => by simp at hk⟩
      | cons y r3 =>
        dsimp only
        by_cases hby : (asciiUpperChar b = 'B' && asciiUpperChar y = 'Y') = true
        · rw [if_pos hby]
          exact tokOK_other _ (by simp) (by simp) (by simp)
        · rw [if_neg hby]
          exact ⟨fun _ => hvalne, fun hk => by simp at hk, fun hk => by simp at hk⟩
  · rw [if_neg ho]
    cases hdr : lookupDR (asciiUpperString ⟨rest.takeWhile isIdentChar⟩) with
    | some d =>
      refine ⟨fun hk => by simp at hk, fun _ => ?_, fun hk => by simp at hk⟩
      simp [hdr]
    | none =>
      cases hkw : lookupKw (asciiUpperString ⟨rest.takeWhile isIdentChar⟩) with
      | some tt =>
        have hsp := lookupKw_not_special _ _ hkw
        exact ⟨fun _ => hupne, fun hk => absurd hk hsp.1, fun hk => absurd hk hsp.2⟩
      | none =>
        exact ⟨fun _ => hvalne, fun hk => by simp at hk, fun hk => by simp at hk⟩

/-- Every token `nextToken` emits satisfies the invariant. -/
theorem nextToken_tokOK (input : List Char) (line col : Nat) :
    TokOK (nextToken input line col).1 := by
  unfold nextToken
  rcases hsk : skipWhitespace input line col with ⟨rest, l, c⟩
  cases rest with
  | nil => exact tokOK_other _ (by simp) (by simp) (by simp)
  | cons ch rest2 =>
    dsimp only
    by_cases h1 : ch = ','
    · rw [if_pos h1]; exact tokOK_other _ (by simp) (by simp) (by simp)
    · rw [if_neg h1]
      by_cases h2 : ch = '('
      · rw [if_pos h2]; exact tokOK_other _ (by simp) (by simp) (by simp)
      · rw [if_neg h2]
        by_cases h3 : ch = ')'
        · rw [if_pos h3]; exact tokOK_other _ (by simp) (by simp) (by simp)
        · rw [if_neg h3]
          by_cases h4 : ch = '.'
          · rw [if_pos h4]; exact tokOK_other _ (by simp) (by simp) (by simp)
          · rw [if_neg h4]
            by_cases h5 : ch = '='
            · rw [if_pos h5]; exact tokOK_other _ (by simp) (by simp) (by simp)
            · rw [if_neg h5]
              by_cases h6 : ch = '!'
              · rw [if_pos h6]
                split
                · exact tokOK_other _ (by simp) (by simp) (by simp)
                · exact tokOK_other _ (by simp) (by simp) (by simp)
              · rw [if_neg h6]
                by_cases h7 : ch = '>'
                · rw [if_pos h7]
                  split
                  · exact tokOK_other _ (by simp) (by simp) (by simp)
                  · exact tokOK_other _ (by simp) (by simp) (by simp)
                · rw [if_neg h7]
                  by_cases h8 : ch = '<'
                  · rw [if_pos h8]
                    split
                    · exact tokOK_other _ (by simp) (by simp) (by simp)
                    · exact tokOK_other _ (by simp) (by simp) (by simp)
                  · rw [if_neg h8]
                    by_cases h9 : (ch = squote || ch = '"') = true
                    · rw [if_pos h9]
                      have hty := readStringAux_type ch l c rest2 "" l (c + 1)
                      refine tokOK_other _ ?_ ?_ ?_ <;>
                        simp only [readString] <;>
                        rcases hty with hs | hs <;> rw [hs] <;> decide
                    · rw [if_neg h9]
                      by_cases h10 : (ch = '-' || isDigitC ch) = true
                      · rw [if_pos h10]
                        refine ⟨fun hk => ?_, fun hk => ?_, fun _ => ?_⟩
                        · exact absurd ((readNumber_type _ _ _).symm.trans hk) (by decide)
                        · exact absurd ((readNumber_type _ _ _).symm.trans hk) (by decide)
                        · apply readNumber_shape
                          rcases Bool.or_eq_true_iff.mp h10 with hm | hd
                          · left; simp [of_decide_eq_true hm]
                          · right; exact ⟨ch, by simp, hd⟩
                      · rw [if_neg ?hn10]
                        case hn10 => simpa using h10
                        by_cases h11 : (isLetterC ch || ch = '_') = true
                        · rw [if_pos h11]
                          apply readIdentOrKeyword_tokOK
                          refine ⟨ch, rest2, rfl, ?_⟩
                          rcases Bool.or_eq_true_iff.mp h11 with hl | hu
                          · exact Or.inl hl
                          · exact Or.inr (of_decide_eq_true hu)
                        · rw [if_neg ?hn11]
                          case hn11 => simpa using h11
                          exact tokOK_other _ (by simp) (by simp) (by simp)

/-- Every token the lexer loop emits satisfies the invariant. -/
theorem tokenizeF_tokOK :
    ∀ (fuel : Nat) (input : List Char) (line col : Nat),
      ∀ t ∈ (tokenizeF fuel input line col).1, TokOK t := by
  intro fuel
  induction fuel with
  | zero => intro input line col t ht; simp [tokenizeF] at ht
  | succ n ih =>
    intro input line col t ht
    unfold tokenizeF at ht
    rcases hnt : nextToken input line col with ⟨tok, rest, l, c⟩
    rw [hnt] at ht
    have htok : TokOK tok := by
      have := nextToken_tokOK input line col
      rw [hnt] at this
      exact this
    by_cases he : tok.type = .tEOF
    · simp only [he, if_true] at ht
      simp at ht
      rw [ht]; exact htok
    · simp only [he, if_false] at ht
      by_cases hr : tok.type = .tError
      · simp only [hr, if_true] at ht
        simp at ht
        rw [ht]; exact htok
      · simp only [hr, if_false] at ht
        rcases hrec : tokenizeF n rest l c with ⟨toks, err⟩
        rw [hrec] at ht
        simp only [List.mem_cons] at ht
        rcases ht with ht | ht
        · rw [ht]; exact htok
        · have := ih rest l c t
          rw [hrec] at this
          exact this ht

/-- Every token `Tokenize` emits satisfies the invariant. -/
theorem tokenize_tokOK (s : String) : ∀ t ∈ (Tokenize s).1, TokOK t :=
  tokenizeF_tokOK _ _ _ _

/-- C6 amended: every number token the lexer emits consists of an optional
leading minus, a digit run, and optionally a dot followed by a digit run;
the value is non-empty and its first character is a minus sign or a digit.
Each digit run may be empty, so a value such as `-` is emitted as a number
token rather than a lexical error. -/
theorem number_token_shape (s : String) (t : Token)
    (ht : t ∈ (Tokenize s).1) (hn : t.type = .tNumber) : numShape t.value :=
  (tokenize_tokOK s t ht).2.2 hn

/-- Witness for the amended C6 theorem: the number token produced for the
input `-` has the stated shape. -/
theorem number_token_shape_witness :
    numShape (Token.value ⟨.tNumber, "-", 1, 1⟩) :=
  number_token_shape "-" ⟨.tNumber, "-", 1, 1⟩ (by decide) rfl

/-! Claim C7.  The ORDER BY fusion, characterised without any boundary
check after the two fused letters. -/

/-- Take-while over a block that wholly satisfies the predicate. -/
theorem takeWhile_append_all (p : Char → Bool) (w rest : List Char)
    (hw : ∀ c ∈ w, p c = true) :
    (w ++ rest).takeWhile p = w ++ rest.takeWhile p := by
  induction w with
  | nil => simp
  | cons c cs ih =>
    have hc := hw c (by simp)
    simp only [List.cons_append, List.takeWhile_cons_of_pos hc]
    rw [ih (fun x hx => hw x (by simp [hx]))]

/-- Drop-while over a block that wholly satisfies the predicate. -/
theorem dropWhile_append_all (p : Char → Bool) (w rest : List Char)
    (hw : ∀ c ∈ w, p c = true) :
    (w ++ rest).dropWhile p = rest.dropWhile p := by
  induction w with
  | nil => simp
  | cons c cs ih =>
    have hc := hw c (by simp)
    simp only [List.cons_append, List.dropWhile_cons_of_pos hc]
    exact ih (fun x hx => hw x (by simp [hx]))

/-- Take-while stops immediately on a failing head. -/
theorem takeWhile_eq_nil_of_head (p : Char → Bool) (rest : List Char)
    (h : ∀ c, rest.head? = some c → p c = false) : rest.takeWhile p = [] := by
  cases rest with
  | nil => rfl
  | cons c r =>
    have hc := h c rfl
    rw [List.takeWhile_cons_of_neg]
    simp [hc]

/-- Drop-while keeps everything from a failing head on. -/
theorem dropWhile_eq_self_of_head (p : Char → Bool) (rest : List Char)
    (h : ∀ c, rest.head? = some c → p c = false) : rest.dropWhile p = rest := by
  cases rest with
  | nil => rfl
  | cons c r =>
    have hc := h c rfl
    rw [List.dropWhile_cons_of_neg]
    simp [hc]

/-- C7 amended: after scanning an identifier word that upper-cases to
`ORDER`, the lexer emits a single `ORDER BY` token exactly when, past any
whitespace, the next two characters upper-case to `B` and `Y` — with no
requirement on what follows them; otherwise it emits an identifier token
with the original word, leaving the input after the skipped whitespace. -/
theorem order_by_fusion (w rest : List Char) (line col : Nat)
    (hw : w ≠ []) (hall : ∀ c ∈ w, isIdentChar c = true)
    (hstop : ∀ c, rest.head? = some c → isIdentChar c = false)
    (hup : asciiUpperString ⟨w⟩ = "ORDER") :
    (∀ b y r2 l2 c2, skipWhitespace rest line (col + w.length) = (b :: y :: r2, l2, c2) →
      ((asciiUpperChar b = 'B' ∧ asciiUpperChar y = 'Y') →
        readIdentOrKeyword (w ++ rest) line col =
          (⟨.tOrderBy, "ORDER BY", line, col⟩, r2, l2, c2 + 2)) ∧
      (¬(asciiUpperChar b = 'B' ∧ asciiUpperChar y = 'Y') →
        readIdentOrKeyword (w ++ rest) line col =
          (⟨.tIdent, ⟨w⟩, line, col⟩, b :: y :: r2, l2, c2))) ∧
    (∀ r2 l2 c2, skipWhitespace rest line (col + w.length) = (r2, l2, c2) →
      r2.length < 2 →
      readIdentOrKeyword (w ++ rest) line col = (⟨.tIdent, ⟨w⟩, line, col⟩, r2, l2, c2)) := by
  have htake : (w ++ rest).takeWhile isIdentChar = w := by
    rw [takeWhile_append_all _ _ _ hall, takeWhile_eq_nil_of_head _ _ hstop, List.append_nil]
  have hdrop : (w ++ rest).dropWhile isIdentChar = rest := by
    rw [dropWhile_append_all _ _ _ hall, dropWhile_eq_self_of_head _ _ hstop]
  constructor
  · intro b y r2 l2 c2 hskp
    constructor
    · intro hby
      have hcond : (asciiUpperChar b = 'B' && asciiUpperChar y = 'Y') = true := by
        simp [hby.1, hby.2]
      simp only [readIdentOrKeyword, htake, hdrop, hup]
      rw [if_pos trivial, hskp]
      dsimp only
      rw [if_pos hcond]
    · intro hby
      have hcond : ¬((asciiUpperChar b = 'B' && asciiUpperChar y = 'Y') = true) := by
        simpa [Bool.and_eq_true, decide_eq_true_iff] using hby
      simp only [readIdentOrKeyword, htake, hdrop, hup]
      rw [if_pos trivial, hskp]
      dsimp only
      rw [if_neg hcond]
  · intro r2 l2 c2 hskp hlen
    simp only [readIdentOrKeyword, htake, hdrop, hup]
    rw [if_pos trivial, hskp]
    cases r2 with
    | nil => rfl
    | cons b r2a =>
      cases r2a with
      | nil => rfl
      | cons y r3 =>
        simp only [List.length_cons] at hlen
        omega

/-- Witness for the amended C7 theorem: in the input `ORDER by(`, the lexer
fuses `ORDER BY` and leaves the parenthesis. -/
theorem order_by_fusion_witness :
    readIdentOrKeyword ("ORDER".data ++ " by(".data) 1 1 =
      (⟨.tOrderBy, "ORDER BY", 1, 1⟩, ['('], 1, 9) :=
  ((order_by_fusion "ORDER".data " by(".data 1 1 (by decide) (by decide) (by decide)
      (by decide)).1 'b' 'y' ['('] 1 7 (by decide)).1 (by decide)

/-! Token-conservation of the parser: every parse function returns a
remainder whose tokens all come from its input.  These lemmas let per-token
facts (from `TokOK`) follow the parser through its recursion. -/

/-- The remainder of a successful parse step draws from the input tokens. -/
def SubRet {α : Type} (f : Except ParseError (α × List Token)) (ts : List Token) : Prop :=
  ∀ a ts2, f = .ok (a, ts2) → ∀ x ∈ ts2, x ∈ ts

/-- Token conservation for the dotted-field loop. -/
theorem parseFieldDots_sub (fuel : Nat) : ∀ (parts : List String) (ts : List Token),
    SubRet (parseFieldDots fuel parts ts) ts := by
  induction fuel with
  | zero => intro parts ts a ts2 h; simp [parseFieldDots] at h
  | succ n ih =>
    intro parts ts a ts2 h x hx
    unfold parseFieldDots at h
    by_cases hdot : check .tDot ts = true
    · rw [if_pos hdot] at h
      by_cases hid : check .tIdent (advanceL ts) = true
      · rw [if_pos hid] at h
        have := ih _ (advanceL (advanceL ts)) a ts2 h x hx
        exact List.mem_of_mem_tail (List.mem_of_mem_tail this)
      · rw [if_neg hid] at h; simp at h
    · rw [if_neg hdot] at h
      simp at h
      rw [← h.2] at hx
      exact hx

/-- Token conservation for `parseField`. -/
theorem parseField_sub (fuel : Nat) (ts : List Token) : SubRet (parseField fuel ts) ts := by
  intro a ts2 h x hx
  unfold parseField at h
  by_cases hid : check .tIdent ts = true
  · rw [if_pos hid] at h
    exact List.mem_of_mem_tail (parseFieldDots_sub fuel _ (advanceL ts) a ts2 h x hx)
  · rw [if_neg hid] at h; simp at h

/-- Token conservation for the field-list loop. -/
theorem parseFieldListAux_sub (fuel : Nat) : ∀ (acc : List Field) (ts : List Token),
    SubRet (parseFieldListAux fuel acc ts) ts := by
  induction fuel with
  | zero => intro acc ts a ts2 h; simp [parseFieldListAux] at h
  | succ n ih =>
    intro acc ts a ts2 h x hx
    unfold parseFieldListAux at h
    cases hf : parseField n ts with
    | error e => rw [hf] at h; simp at h
    | ok p =>
      rw [hf] at h
      rcases p with ⟨f, ts1⟩
      dsimp only at h
      by_cases hcm : check .tComma ts1 = true
      · rw [if_pos hcm] at h
        have h2 := ih _ (advanceL ts1) a ts2 h x hx
        exact parseField_sub n ts f ts1 hf x (List.mem_of_mem_tail h2)
      · rw [if_neg hcm] at h
        simp at h
        rw [← h.2] at hx
        exact parseField_sub n ts f ts1 hf x hx

/-- Token conservation for `parseFieldList`. -/
theorem parseFieldList_sub (fuel : Nat) (ts : List Token) :
    SubRet (parseFieldList fuel ts) ts := by
  intro a ts2 h x hx
  unfold parseFieldList at h
  cases hf : parseFieldListAux fuel [] ts with
  | error e => rw [hf] at h; simp at h
  | ok p =>
    rw [hf] at h
    rcases p with ⟨fields, ts1⟩
    dsimp only at h
    by_cases hz : fields = []
    · rw [if_pos hz] at h; simp at h
    · rw [if_neg hz] at h
      simp at h
      rw [← h.2] at hx
      exact parseFieldListAux_sub fuel [] ts fields ts1 hf x hx

/-- Token conservation for `parseOperator`. -/
theorem parseOperator_sub (ts : List Token) : SubRet (parseOperator ts) ts := by
  intro a ts2 h x hx
  unfold parseOperator at h
  split at h
  · simp at h; rw [← h.2] at hx; exact List.mem_of_mem_tail hx
  · simp at h; rw [← h.2] at hx; exact List.mem_of_mem_tail hx
  · simp at h; rw [← h.2] at hx; exact List.mem_of_mem_tail hx
  · simp at h; rw [← h.2] at hx; exact List.mem_of_mem_tail hx
  · simp at h; rw [← h.2] at hx; exact List.mem_of_mem_tail hx
  · simp at h; rw [← h.2] at hx; exact List.mem_of_mem_tail hx
  · simp at h; rw [← h.2] at hx; exact List.mem_of_mem_tail hx
  · -- NOT: one further keyword is consumed
    by_cases h1 : check .tIn (advanceL ts) = true
    · rw [if_pos h1] at h; simp at h; rw [← h.2] at hx
      exact List.mem_of_mem_tail (List.mem_of_mem_tail hx)
    · rw [if_neg h1] at h
      by_cases h2 : check .tLike (advanceL ts) = true
      · rw [if_pos h2] at h; simp at h; rw [← h.2] at hx
        exact List.mem_of_mem_tail (List.mem_of_mem_tail hx)
      · rw [if_neg h2] at h
        by_cases h3 : check .tRegexpMatch (advanceL ts) = true
        · rw [if_pos h3] at h; simp at h; rw [← h.2] at hx
          exact List.mem_of_mem_tail (List.mem_of_mem_tail hx)
        · rw [if_neg h3] at h; simp at h
  · simp at h; rw [← h.2] at hx; exact List.mem_of_mem_tail hx
  · -- CONTAINS: one further keyword is consumed
    by_cases h1 : check .tAny (advanceL ts) = true
    · rw [if_pos h1] at h; simp at h; rw [← h.2] at hx
      exact List.mem_of_mem_tail (List.mem_of_mem_tail hx)
    · rw [if_neg h1] at h
      by_cases h2 : check .tAll (advanceL ts) = true
      · rw [if_pos h2] at h; simp at h; rw [← h.2] at hx
        exact List.mem_of_mem_tail (List.mem_of_mem_tail hx)
      · rw [if_neg h2] at h
        by_cases h3 : check .tNone (advanceL ts) = true
        · rw [if_pos h3] at h; simp at h; rw [← h.2] at hx
          exact List.mem_of_mem_tail (List.mem_of_mem_tail hx)
        · rw [if_neg h3] at h; simp at h
  · -- IS: NULL or NOT NULL
    by_cases h1 : check .tNot (advanceL ts) = true
    · rw [if_pos h1] at h
      by_cases h2 : check .tNull (advanceL (advanceL ts)) = true
      · rw [if_pos h2] at h; simp at h; rw [← h.2] at hx
        exact List.mem_of_mem_tail (List.mem_of_mem_tail (List.mem_of_mem_tail hx))
      · rw [if_neg h2] at h; simp at h
    · rw [if_neg h1] at h
      by_cases h2 : check .tNull (advanceL ts) = true
      · rw [if_pos h2] at h; simp at h; rw [← h.2] at hx
        exact List.mem_of_mem_tail (List.mem_of_mem_tail hx)
      · rw [if_neg h2] at h; simp at h
  · simp at h; rw [← h.2] at hx; exact List.mem_of_mem_tail hx
  · simp at h; rw [← h.2] at hx; exact List.mem_of_mem_tail hx
  · simp at h; rw [← h.2] at hx; exact List.mem_of_mem_tail hx
  · simp at h

/-- Token conservation for `parseSimpleValue`. -/
theorem parseSimpleValue_sub (ts : List Token) : SubRet (parseSimpleValue ts) ts := by
  intro a ts2 h x hx
  unfold parseSimpleValue at h
  split at h <;> (try simp at h) <;> rw [← h.2] at hx <;> exact List.mem_of_mem_tail hx

/-- Token conservation for the list-value loop. -/
theorem parseListAux_sub (fuel : Nat) : ∀ (acc : List String) (ts : List Token),
    SubRet (parseListAux fuel acc ts) ts := by
  induction fuel with
  | zero => intro acc ts a ts2 h; simp [parseListAux] at h
  | succ n ih =>
    intro acc ts a ts2 h x hx
    unfold parseListAux at h
    cases hf : parseSimpleValue ts with
    | error e => rw [hf] at h; simp at h
    | ok p =>
      rw [hf] at h
      rcases p with ⟨v, ts1⟩
      dsimp only at h
      by_cases hcm : check .tComma ts1 = true
      · rw [if_pos hcm] at h
        have h2 := ih _ (advanceL ts1) a ts2 h x hx
        exact parseSimpleValue_sub ts v ts1 hf x (List.mem_of_mem_tail h2)
      · rw [if_neg hcm] at h
        simp at h
        rw [← h.2] at hx
        exact parseSimpleValue_sub ts v ts1 hf x hx

/-- Token conservation for `parseList`. -/
theorem parseList_sub (fuel : Nat) (ts : List Token) : SubRet (parseList fuel ts) ts := by
  intro a ts2 h x hx
  unfold parseList at h
  by_cases hlp : check .tLParen ts = true
  · rw [if_pos hlp] at h
    cases hf : parseListAux fuel [] (advanceL ts) with
    | error e => rw [hf] at h; simp at h
    | ok p =>
      rw [hf] at h
      rcases p with ⟨items, ts1⟩
      dsimp only at h
      by_cases hrp : check .tRParen ts1 = true
      · rw [if_pos hrp] at h
        simp at h
        rw [← h.2] at hx
        exact List.mem_of_mem_tail
          (parseListAux_sub fuel [] (advanceL ts) items ts1 hf x (List.mem_of_mem_tail hx))
      · rw [if_neg hrp] at h; simp at h
  · rw [if_neg hlp] at h; simp at h

/-- Token conservation for `parseValue`. -/
theorem parseValue_sub (fuel : Nat) (op : Operator) (ts : List Token) :
    SubRet (parseValue fuel op ts) ts := by
  intro a ts2 h x hx
  unfold parseValue at h
  by_cases hdu : op = .opDuring
  · rw [if_pos hdu] at h
    by_cases hdr : check .tDateRange ts = true
    · rw [if_pos hdr] at h
      cases hl : lookupDR (current ts).value with
      | none => rw [hl] at h; simp at h
      | some dr =>
        rw [hl] at h
        simp at h
        rw [← h.2] at hx
        exact List.mem_of_mem_tail hx
    · rw [if_neg hdr] at h; simp at h
  · rw [if_neg hdu] at h
    by_cases hbt : op = .opBetween
    · rw [if_pos hbt] at h
      cases hf : parseSimpleValue ts with
      | error e => rw [hf] at h; simp at h
      | ok p =>
        rw [hf] at h
        rcases p with ⟨start, ts1⟩
        dsimp only at h
        by_cases hand : check .tAnd ts1 = true
        · rw [if_pos hand] at h
          cases hg : parseSimpleValue (advanceL ts1) with
          | error e => rw [hg] at h; simp at h
          | ok q =>
            rw [hg] at h
            rcases q with ⟨stop, ts3⟩
            simp at h
            rw [← h.2] at hx
            exact parseSimpleValue_sub ts start ts1 hf x
              (List.mem_of_mem_tail (parseSimpleValue_sub (advanceL ts1) stop ts3 hg x hx))
        · rw [if_neg hand] at h; simp at h
    · rw [if_neg hbt] at h
      by_cases hin : (op = .opIn || op = .opNotIn || op = .opContainsAny ||
          op = .opContainsAll || op = .opContainsNone) = true
      · rw [if_pos hin] at h
        exact parseList_sub fuel ts a ts2 h x hx
      · rw [if_neg hin] at h
        split at h <;> (try simp at h) <;>
          first
          | (rw [← h.2] at hx; exact List.mem_of_mem_tail hx)
          | (rename_i heq
             -- the number arm has an inner match on goParseFloat
             revert h
             cases hg : goParseFloat (current ts).value with
             | none => intro h; simp at h
             | some nv =>
               intro h
               simp at h
               rw [← h.2] at hx
               exact List.mem_of_mem_tail hx)

/-- Token conservation for `parseCondition`. -/
theorem parseCondition_sub (fuel : Nat) (ts : List Token) :
    SubRet (parseCondition fuel ts) ts := by
  intro a ts2 h x hx
  unfold parseCondition at h
  cases hf : parseField fuel ts with
  | error e => rw [hf] at h; simp at h
  | ok p =>
    rw [hf] at h
    rcases p with ⟨f, ts1⟩
    dsimp only at h
    cases hop : parseOperator ts1 with
    | error e => rw [hop] at h; simp at h
    | ok q =>
      rw [hop] at h
      rcases q with ⟨op, tsB⟩
      dsimp only at h
      by_cases hnull : (op = .opIsNull || op = .opIsNotNull) = true
      · rw [if_pos hnull] at h
        simp at h
        rw [← h.2] at hx
        exact parseField_sub fuel ts f ts1 hf x (parseOperator_sub ts1 op tsB hop x hx)
      · rw [if_neg hnull] at h
        cases hv : parseValue fuel op tsB with
        | error e => rw [hv] at h; simp at h
        | ok r =>
          rw [hv] at h
          rcases r with ⟨v, ts3⟩
          simp at h
          rw [← h.2] at hx
          exact parseField_sub fuel ts f ts1 hf x
            (parseOperator_sub ts1 op tsB hop x (parseValue_sub fuel op tsB v ts3 hv x hx))

/-! Claim C2.  Parse-success invariants. -/

/-- Operator/value-kind compatibility demanded of every parsed condition:
IS NULL and IS NOT NULL pair with the null kind, DURING with the date-range
kind, BETWEEN with a list of exactly two strings, the membership and
containment operators with a non-empty list, and every other operator with a
string or a number. -/
def compatV (op : Operator) (v : Value) : Prop :=
  if op = .opIsNull ∨ op = .opIsNotNull then v.type = .valueNull
  else if op = .opDuring then v.type = .valueDateRange
  else if op = .opBetween then v.type = .valueList ∧ v.list.length = 2
  else if op = .opIn ∨ op = .opNotIn ∨ op = .opContainsAny ∨
          op = .opContainsAll ∨ op = .opContainsNone then
    v.type = .valueList ∧ v.list ≠ []
  else v.type = .valueString ∨ v.type = .valueNumber

/-- A successful `parseFieldList` returns a non-empty field list. -/
theorem parseFieldList_nonempty (fuel : Nat) (ts : List Token) (fields : List Field)
    (ts2 : List Token) (h : parseFieldList fuel ts = .ok (fields, ts2)) : fields ≠ [] := by
  unfold parseFieldList at h
  cases hf : parseFieldListAux fuel [] ts with
  | error e => rw [hf] at h; simp at h
  | ok p =>
    rw [hf] at h
    rcases p with ⟨fl, ts1⟩
    dsimp only at h
    by_cases hz : fl = []
    · rw [if_pos hz] at h; simp at h
    · rw [if_neg hz] at h
      simp at h
      rw [← h.1]
      exact hz

/-- The list-value loop extends its accumulator by at least one element. -/
theorem parseListAux_grows (fuel : Nat) : ∀ (acc : List String) (ts : List Token)
    (items : List String) (ts2 : List Token),
    parseListAux fuel acc ts = .ok (items, ts2) →
    ∃ v rest, items = acc ++ v :: rest := by
  induction fuel with
  | zero => intro acc ts items ts2 h; simp [parseListAux] at h
  | succ n ih =>
    intro acc ts items ts2 h
    unfold parseListAux at h
    cases hf : parseSimpleValue ts with
    | error e => rw [hf] at h; simp at h
    | ok p =>
      rw [hf] at h
      rcases p with ⟨v, ts1⟩
      dsimp only at h
      by_cases hcm : check .tComma ts1 = true
      · rw [if_pos hcm] at h
        obtain ⟨w, rest, hw⟩ := ih (acc ++ [v]) (advanceL ts1) items ts2 h
        refine ⟨v, w :: rest, ?_⟩
        rw [hw]
        simp
      · rw [if_neg hcm] at h
        simp at h
        exact ⟨v, [], by rw [← h.1]⟩

/-- A successful `parseList` yields a non-empty list value. -/
theorem parseList_shape (fuel : Nat) (ts : List Token) (v : Value) (ts2 : List Token)
    (h : parseList fuel ts = .ok (v, ts2)) :
    ∃ items, items ≠ [] ∧ v = listValue items := by
  unfold parseList at h
  by_cases hlp : check .tLParen ts = true
  · rw [if_pos hlp] at h
    cases hf : parseListAux fuel [] (advanceL ts) with
    | error e => rw [hf] at h; simp at h
    | ok p =>
      rw [hf] at h
      rcases p with ⟨items, ts1⟩
      dsimp only at h
      by_cases hrp : check .tRParen ts1 = true
      · rw [if_pos hrp] at h
        simp at h
        obtain ⟨w, rest, hw⟩ := parseListAux_grows fuel [] (advanceL ts) items ts1 hf
        exact ⟨items, by rw [hw]; simp, h.1.symm⟩
      · rw [if_neg hrp] at h; simp at h
  · rw [if_neg hlp] at h; simp at h

/-- The value `parseValue` builds is compatible with its operator (the null
operators never reach `parseValue`). -/
theorem parseValue_compat (fuel : Nat) (op : Operator) (ts : List Token)
    (v : Value) (ts2 : List Token)
    (hn1 : op ≠ .opIsNull) (hn2 : op ≠ .opIsNotNull)
    (h : parseValue fuel op ts = .ok (v, ts2)) : compatV op v := by
  unfold parseValue at h
  unfold compatV
  rw [if_neg (by rintro (rfl | rfl) <;> simp at hn1 hn2)]
  by_cases hdu : op = .opDuring
  · rw [if_pos hdu] at h ⊢
    by_cases hdr : check .tDateRange ts = true
    · rw [if_pos hdr] at h
      cases hl : lookupDR (current ts).value with
      | none => rw [hl] at h; simp at h
      | some dr =>
        rw [hl] at h
        simp at h
        rw [← h.1]
        rfl
    · rw [if_neg hdr] at h; simp at h
  · rw [if_neg hdu] at h ⊢
    by_cases hbt : op = .opBetween
    · rw [if_pos hbt] at h ⊢
      cases hf : parseSimpleValue ts with
      | error e => rw [hf] at h; simp at h
      | ok p =>
        rw [hf] at h
        rcases p with ⟨start, ts1⟩
        dsimp only at h
        by_cases hand : check .tAnd ts1 = true
        · rw [if_pos hand] at h
          cases hg : parseSimpleValue (advanceL ts1) with
          | error e => rw [hg] at h; simp at h
          | ok qq =>
            rw [hg] at h
            rcases qq with ⟨stop, ts3⟩
            simp at h
            rw [← h.1]
            exact ⟨rfl, rfl⟩
        · rw [if_neg hand] at h; simp at h
    · rw [if_neg hbt] at h ⊢
      by_cases hinb : (op = .opIn || op = .opNotIn || op = .opContainsAny ||
          op = .opContainsAll || op = .opContainsNone) = true
      · rw [if_pos hinb] at h
        have hin : op = .opIn ∨ op = .opNotIn ∨ op = .opContainsAny ∨
            op = .opContainsAll ∨ op = .opContainsNone := by
          simp only [Bool.or_eq_true, decide_eq_true_eq] at hinb
          tauto
        rw [if_pos hin]
        obtain ⟨items, hne, hv⟩ := parseList_shape fuel ts v ts2 h
        rw [hv]
        exact ⟨rfl, by simpa [listValue] using hne⟩
      · rw [if_neg hinb] at h
        have hin : ¬(op = .opIn ∨ op = .opNotIn ∨ op = .opContainsAny ∨
            op = .opContainsAll ∨ op = .opContainsNone) := by
          simp only [Bool.or_eq_true, decide_eq_true_eq] at hinb
          tauto
        rw [if_neg hin]
        split at h
        · simp at h; rw [← h.1]; left; rfl
        · revert h
          cases hg : goParseFloat (current ts).value with
          | none => intro h; simp at h
          | some nv =>
            intro h
            simp at h
            rw [← h.1]
            right; rfl
        · simp at h; rw [← h.1]; left; rfl
        · simp at h

/-- Every condition `parseCondition` builds is operator/value compatible. -/
theorem parseCondition_compat (fuel : Nat) (ts : List Token) (c : Condition)
    (ts2 : List Token) (h : parseCondition fuel ts = .ok (c, ts2)) :
    compatV c.operator c.value := by
  unfold parseCondition at h
  cases hf : parseField fuel ts with
  | error e => rw [hf] at h; simp at h
  | ok p =>
    rw [hf] at h
    rcases p with ⟨f, ts1⟩
    dsimp only at h
    cases hop : parseOperator ts1 with
    | error e => rw [hop] at h; simp at h
    | ok q =>
      rw [hop] at h
      rcases q with ⟨op, tsB⟩
      dsimp only at h
      by_cases hnull : (op = .opIsNull || op = .opIsNotNull) = true
      · rw [if_pos hnull] at h
        simp at h
        rw [← h.1]
        show compatV op nullValue
        unfold compatV
        rw [if_pos (by simpa using hnull)]
        rfl
      · rw [if_neg hnull] at h
        cases hv : parseValue fuel op tsB with
        | error e => rw [hv] at h; simp at h
        | ok r =>
          rw [hv] at h
          rcases r with ⟨v, ts3⟩
          simp at h
          rw [← h.1]
          show compatV op v
          simp only [Bool.or_eq_true, not_or, decide_eq_true_eq] at hnull
          exact parseValue_compat fuel op tsB v ts3 hnull.1 hnull.2 hv

/-- Every condition the conditions loop accumulates is compatible. -/
theorem parseConditionsAux_compat (fuel : Nat) : ∀ (acc : List Condition) (ts : List Token)
    (conds : List Condition) (ts2 : List Token),
    (∀ c ∈ acc, compatV c.operator c.value) →
    parseConditionsAux fuel acc ts = .ok (conds, ts2) →
    ∀ c ∈ conds, compatV c.operator c.value := by
  induction fuel with
  | zero => intro acc ts conds ts2 _ h; simp [parseConditionsAux] at h
  | succ n ih =>
    intro acc ts conds ts2 hacc h
    unfold parseConditionsAux at h
    cases hf : parseCondition n ts with
    | error e => rw [hf] at h; simp at h
    | ok p =>
      rw [hf] at h
      rcases p with ⟨c, ts1⟩
      dsimp only at h
      have hc := parseCondition_compat n ts c ts1 hf
      have hacc1 : ∀ d ∈ acc ++ [c], compatV d.operator d.value := by
        intro d hd
        rcases List.mem_append.mp hd with hd | hd
        · exact hacc d hd
        · rw [List.mem_singleton.mp hd]; exact hc
      by_cases hand : check .tAnd ts1 = true
      · rw [if_pos hand] at h
        exact ih _ (advanceL ts1) conds ts2 hacc1 h
      · rw [if_neg hand] at h
        simp at h
        intro d hd
        rw [← h.1] at hd
        exact hacc1 d hd

/-- Every condition of a parsed WHERE clause is compatible. -/
theorem parseWhereOpt_compat (fuel : Nat) (ts : List Token) (conds : List Condition)
    (ts2 : List Token) (h : parseWhereOpt fuel ts = .ok (conds, ts2)) :
    ∀ c ∈ conds, compatV c.operator c.value := by
  unfold parseWhereOpt at h
  by_cases hw : check .tWhere ts = true
  · rw [if_pos hw] at h
    exact parseConditionsAux_compat fuel [] (advanceL ts) conds ts2 (by simp) h
  · rw [if_neg hw] at h
    simp at h
    intro c hc
    rw [h.1] at hc
    simp at hc

/-- A successful LIMIT clause (or its absence) yields a non-negative limit. -/
theorem parseLimitOpt_nonneg (ts : List Token) (n : Int) (ts2 : List Token)
    (h : parseLimitOpt ts = .ok (n, ts2)) : 0 ≤ n := by
  unfold parseLimitOpt at h
  by_cases hl : check .tLimit ts = true
  · rw [if_pos hl] at h
    dsimp only at h
    by_cases hn : check .tNumber (advanceL ts) = true
    · rw [if_pos hn] at h
      cases hg : goAtoi (current (advanceL ts)).value with
      | none => rw [hg] at h; simp at h
      | some m =>
        rw [hg] at h
        by_cases hm : m ≤ 0
        · simp [hm] at h
        · simp [hm] at h
          obtain ⟨h1, h2⟩ := h
          omega
    · rw [if_neg hn] at h; simp at h
  · rw [if_neg hl] at h
    simp at h
    omega

/-- C2: whenever `Parse` succeeds, the query has a non-empty SELECT list, a
non-empty FROM resource, a non-negative limit (zero meaning unset), and
every WHERE condition carries a value kind permitted by its operator. -/
theorem parse_invariants (s : String) (q : Query) (h : Parse s = .ok q) :
    q.select ≠ [] ∧ q.from_ ≠ "" ∧ 0 ≤ q.limit ∧
    ∀ c ∈ q.where_, compatV c.operator c.value := by
  unfold Parse at h
  rcases htk : Tokenize s with ⟨tokens, err⟩
  rw [htk] at h
  have hgood : ∀ t ∈ tokens, TokOK t := by
    have := tokenize_tokOK s
    rw [htk] at this
    exact this
  cases err with
  | some e => simp at h
  | none =>
    dsimp only at h
    simp only [parseQuery] at h
    by_cases hsel : check .tSelect tokens = true
    · rw [if_pos hsel] at h
      cases hfl : parseFieldList (tokens.length + 1) (advanceL tokens) with
      | error e => rw [hfl] at h; simp at h
      | ok p =>
        rw [hfl] at h
        rcases p with ⟨fields, ts1⟩
        dsimp only at h
        by_cases hfrom : check .tFrom ts1 = true
        · rw [if_pos hfrom] at h
          by_cases hid : check .tIdent (advanceL ts1) = true
          · rw [if_pos hid] at h
            cases hwh : parseWhereOpt (tokens.length + 1) (advanceL (advanceL ts1)) with
            | error e => rw [hwh] at h; simp at h
            | ok pw =>
              rw [hwh] at h
              rcases pw with ⟨conds, ts4⟩
              dsimp only at h
              cases hob : parseOrderByOpt (tokens.length + 1) ts4 with
              | error e => rw [hob] at h; simp at h
              | ok po =>
                rw [hob] at h
                rcases po with ⟨ords, ts5⟩
                dsimp only at h
                cases hlm : parseLimitOpt ts5 with
                | error e => rw [hlm] at h; simp at h
                | ok pl =>
                  rw [hlm] at h
                  rcases pl with ⟨lim, ts6⟩
                  dsimp only at h
                  cases hpp : parseParametersOpt (tokens.length + 1) ts6 with
                  | error e => rw [hpp] at h; simp at h
                  | ok ppr =>
                    rw [hpp] at h
                    rcases ppr with ⟨params, ts7⟩
                    dsimp only at h
                    by_cases heof : check .tEOF ts7 = true
                    · rw [if_pos heof] at h
                      injection h with h
                      subst h
                      refine ⟨parseFieldList_nonempty _ _ _ _ hfl, ?_, ?_, ?_⟩
                      · -- the FROM resource comes from an identifier token of
                        -- the lexer, whose value is non-empty
                        show (current (advanceL ts1)).value ≠ ""
                        have hty : (current (advanceL ts1)).type = .tIdent := by
                          simpa [check] using hid
                        cases hcur : advanceL ts1 with
                        | nil =>
                          rw [hcur] at hty
                          simp [current] at hty
                        | cons t rest =>
                          rw [hcur] at hty
                          simp only [current, List.headD_cons] at hty
                          have h0 : t ∈ advanceL ts1 := by rw [hcur]; simp
                          have h1 : t ∈ ts1 := List.mem_of_mem_tail h0
                          have hmem : t ∈ tokens :=
                            List.mem_of_mem_tail (parseFieldList_sub _ _ _ _ hfl t h1)
                          simp only [current, List.headD_cons]
                          exact (hgood t hmem).1 hty
                      · exact parseLimitOpt_nonneg _ _ _ hlm
                      · exact parseWhereOpt_compat _ _ _ _ hwh
                    · rw [if_neg heof] at h; simp at h
          · rw [if_neg hid] at h; simp at h
        · rw [if_neg hfrom] at h; simp at h
    · rw [if_neg hsel] at h; simp at h

/-- Witness for C2 on a concrete successfully parsed query. -/
theorem parse_invariants_witness :
    (⟨[⟨"a"⟩], "b", [], [], 0, []⟩ : Query).select ≠ [] ∧
    (⟨[⟨"a"⟩], "b", [], [], 0, []⟩ : Query).from_ ≠ "" ∧
    0 ≤ (⟨[⟨"a"⟩], "b", [], [], 0, []⟩ : Query).limit ∧
    ∀ c ∈ (⟨[⟨"a"⟩], "b", [], [], 0, []⟩ : Query).where_,
      compatV c.operator c.value :=
  parse_invariants "SELECT a FROM b" ⟨[⟨"a"⟩], "b", [], [], 0, []⟩ (by rfl)

/-! Claim C9.  The message `unknown date range: ...` is unreachable: every
date-range token the lexer emits carries a key of the date-range table, so
the lookup in the DURING branch of `parseValue` always succeeds.  The proof
tracks, through every stage, that no other error message can even share the
first three characters `unk` with it. -/

/-- The message does not begin with the three characters `unk` — which every
message of the form `unknown date range: ...` does. -/
@[reducible] def NoUnk (m : String) : Prop :=
  m.data.take 3 ≠ ['u', 'n', 'k']

/-- Appending anything to a string of length at least three preserves its
three-character prefix, hence `NoUnk`. -/
theorem noUnk_append (p v : String) (hlen : 3 ≤ p.data.length) (hp : NoUnk p) :
    NoUnk (p ++ v) := by
  unfold NoUnk at hp ⊢
  rw [String.data_append, List.take_append_eq_append_take,
      Nat.sub_eq_zero_of_le hlen]
  simpa using hp

/-- All date-range tokens in the list carry keys of the date-range table. -/
def GoodToks (ts : List Token) : Prop :=
  ∀ t ∈ ts, t.type = .tDateRange → (lookupDR t.value).isSome = true

/-- A parse error built by `perr` carries exactly its message. -/
theorem noUnk_perr (m : String) (ts : List Token) (hm : NoUnk m) :
    NoUnk (perr m ts).message := hm

/-- `GoodToks` restricts along any token-subset. -/
theorem goodToks_sub {ts ts2 : List Token} (hg : GoodToks ts)
    (hs : ∀ x ∈ ts2, x ∈ ts) : GoodToks ts2 :=
  fun t ht => hg t (hs t ht)

/-- When `readStringAux` ends in an error token, the message is exactly
`unterminated string`. -/
theorem readStringAux_errval (quote : Char) (sl sc : Nat) :
    ∀ (l : List Char) (acc : String) (line col : Nat),
      (readStringAux quote sl sc l acc line col).1.type = .tError →
      (readStringAux quote sl sc l acc line col).1.value = "unterminated string"
  | [], _, _, _ => fun _ => rfl
  | [c], acc, line, col => by
    by_cases hc : c = quote
    · intro hh; exfalso; simp [readStringAux, hc] at hh
    · intro _; simp [readStringAux, hc]
  | c :: d :: rest, acc, line, col => by
    by_cases hc : c = quote
    · intro hh; exfalso; simp [readStringAux, hc] at hh
    · by_cases hb : c = '\\'
      · simp only [readStringAux, if_neg hc, if_pos hb]
        apply readStringAux_errval
      · simp only [readStringAux, if_neg hc, if_neg hb]
        apply readStringAux_errval

/-- Error tokens built by `nextToken` never carry a value starting `unk`. -/
theorem nextToken_errval (input : List Char) (line col : Nat)
    (h : (nextToken input line col).1.type = .tError) :
    NoUnk (nextToken input line col).1.value := by
  have hub : NoUnk ("unexpected character " ++ squote.toString) := by decide
  have hub2 : ∀ w : String,
      NoUnk (("unexpected character " ++ squote.toString) ++ w) := by
    intro w
    exact noUnk_append _ w (by decide) hub
  have hub3 : ∀ (w z : String),
      NoUnk ((("unexpected character " ++ squote.toString) ++ w) ++ z) := by
    intro w z
    apply noUnk_append
    · rw [String.data_append, List.length_append]
      have h3le : 3 ≤ ("unexpected character " ++ squote.toString).data.length := by decide
      omega
    · exact hub2 w
  revert h
  unfold nextToken
  rcases skipWhitespace input line col with ⟨rest, l, c⟩
  cases rest with
  | nil => intro h; simp at h
  | cons ch rest2 =>
    dsimp only
    by_cases h1 : ch = ','
    · rw [if_pos h1]; intro h; simp at h
    · rw [if_neg h1]
      by_cases h2 : ch = '('
      · rw [if_pos h2]; intro h; simp at h
      · rw [if_neg h2]
        by_cases h3 : ch = ')'
        · rw [if_pos h3]; intro h; simp at h
        · rw [if_neg h3]
          by_cases h4 : ch = '.'
          · rw [if_pos h4]; intro h; simp at h
          · rw [if_neg h4]
            by_cases h5 : ch = '='
            · rw [if_pos h5]; intro h; simp at h
            · rw [if_neg h5]
              by_cases h6 : ch = '!'
              · rw [if_pos h6]
                split
                · intro h; simp at h
                · intro _; exact hub3 "!" squote.toString
              · rw [if_neg h6]
                by_cases h7 : ch = '>'
                · rw [if_pos h7]
                  split <;> (intro h; simp at h)
                · rw [if_neg h7]
                  by_cases h8 : ch = '<'
                  · rw [if_pos h8]
                    split <;> (intro h; simp at h)
                  · rw [if_neg h8]
                    by_cases h9 : (ch = squote || ch = '"') = true
                    · rw [if_pos h9]
                      intro hty
                      have hval := readStringAux_errval ch l c rest2 "" l (c + 1)
                        (by simpa [readString] using hty)
                      show NoUnk (readStringAux ch l c rest2 "" l (c + 1)).1.value
                      rw [hval]
                      decide
                    · rw [if_neg h9]
                      by_cases h10 : (ch = '-' || isDigitC ch) = true
                      · rw [if_pos h10]
                        intro h
                        exact absurd ((readNumber_type _ _ _).symm.trans h) (by decide)
                      · rw [if_neg h10]
                        by_cases h11 : (isLetterC ch || ch = '_') = true
                        · rw [if_pos h11]
                          intro h
                          -- identifier scanning never produces an error token
                          exfalso
                          revert h
                          simp only [readIdentOrKeyword]
                          by_cases ho : asciiUpperString
                              ⟨(ch :: rest2).takeWhile isIdentChar⟩ = "ORDER"
                          · rw [if_pos ho]
                            rcases skipWhitespace ((ch :: rest2).dropWhile isIdentChar) l
                                (c + ((ch :: rest2).takeWhile isIdentChar).length) with
                              ⟨r2, l2, c2⟩
                            cases r2 with
                            | nil => intro h; simp at h
                            | cons b r2a =>
                              cases r2a with
                              | nil => intro h; simp at h
                              | cons y r3 =>
                                dsimp only
                                by_cases hby : (asciiUpperChar b = 'B' &&
                                    asciiUpperChar y = 'Y') = true
                                · rw [if_pos hby]; intro h; simp at h
                                · rw [if_neg hby]; intro h; simp at h
                          · rw [if_neg ho]
                            cases hdr : lookupDR (asciiUpperString
                                ⟨(ch :: rest2).takeWhile isIdentChar⟩) with
                            | some d => intro h; simp at h
                            | none =>
                              cases hkw : lookupKw (asciiUpperString
                                  ⟨(ch :: rest2).takeWhile isIdentChar⟩) with
                              | some tt =>
                                intro h
                                have hker : ∀ pr ∈ Keywords, pr.2 ≠ TokenType.tError := by
                                  decide
                                unfold lookupKw at hkw
                                cases hf : Keywords.find? (fun p => p.1 =
                                    asciiUpperString ⟨(ch :: rest2).takeWhile isIdentChar⟩) with
                                | none => rw [hf] at hkw; simp at hkw
                                | some pr =>
                                  rw [hf] at hkw
                                  simp at hkw
                                  rw [← hkw] at h
                                  exact hker pr (List.mem_of_find?_eq_some hf) h
                              | none => intro h; simp at h
                        · rw [if_neg h11]
                          intro _
                          exact hub3 ch.toString squote.toString

/-- Every parse error of the dotted-field loop avoids the `unk` prefix. -/
theorem parseFieldDots_msg (fuel : Nat) : ∀ (parts : List String) (ts : List Token)
    (e : ParseError), parseFieldDots fuel parts ts = .error e → NoUnk e.message := by
  induction fuel with
  | zero =>
    intro parts ts e h
    simp [parseFieldDots] at h
    subst h
    exact noUnk_perr _ _ (by decide)
  | succ n ih =>
    intro parts ts e h
    unfold parseFieldDots at h
    by_cases hdot : check .tDot ts = true
    · rw [if_pos hdot] at h
      by_cases hid : check .tIdent (advanceL ts) = true
      · rw [if_pos hid] at h
        exact ih _ _ e h
      · rw [if_neg hid] at h
        simp at h
        subst h
        exact noUnk_perr _ _ (by decide)
    · rw [if_neg hdot] at h
      simp at h

/-- Every parse error of `parseField` avoids the `unk` prefix. -/
theorem parseField_msg (fuel : Nat) (ts : List Token) (e : ParseError)
    (h : parseField fuel ts = .error e) : NoUnk e.message := by
  unfold parseField at h
  by_cases hid : check .tIdent ts = true
  · rw [if_pos hid] at h
    exact parseFieldDots_msg fuel _ _ e h
  · rw [if_neg hid] at h
    simp at h
    subst h
    exact noUnk_perr _ _ (by decide)

/-- Every parse error of the field-list loop avoids the `unk` prefix. -/
theorem parseFieldListAux_msg (fuel : Nat) : ∀ (acc : List Field) (ts : List Token)
    (e : ParseError), parseFieldListAux fuel acc ts = .error e → NoUnk e.message := by
  induction fuel with
  | zero =>
    intro acc ts e h
    simp [parseFieldListAux] at h
    subst h
    exact noUnk_perr _ _ (by decide)
  | succ n ih =>
    intro acc ts e h
    unfold parseFieldListAux at h
    cases hf : parseField n ts with
    | error e2 =>
      rw [hf] at h
      simp at h
      subst h
      exact parseField_msg n ts e2 hf
    | ok p =>
      rw [hf] at h
      rcases p with ⟨f, ts1⟩
      dsimp only at h
      by_cases hcm : check .tComma ts1 = true
      · rw [if_pos hcm] at h
        exact ih _ _ e h
      · rw [if_neg hcm] at h
        simp at h

/-- Every parse error of `parseFieldList` avoids the `unk` prefix. -/
theorem parseFieldList_msg (fuel : Nat) (ts : List Token) (e : ParseError)
    (h : parseFieldList fuel ts = .error e) : NoUnk e.message := by
  unfold parseFieldList at h
  cases hf : parseFieldListAux fuel [] ts with
  | error e2 =>
    rw [hf] at h
    simp at h
    subst h
    exact parseFieldListAux_msg fuel [] ts e2 hf
  | ok p =>
    rw [hf] at h
    rcases p with ⟨fields, ts1⟩
    dsimp only at h
    by_cases hz : fields = []
    · rw [if_pos hz] at h
      simp at h
      subst h
      exact noUnk_perr _ _ (by decide)
    · rw [if_neg hz] at h
      simp at h

/-- Every parse error of `parseOperator` avoids the `unk` prefix. -/
theorem parseOperator_msg (ts : List Token) (e : ParseError)
    (h : parseOperator ts = .error e) : NoUnk e.message := by
  unfold parseOperator at h
  split at h
  · simp at h
  · simp at h
  · simp at h
  · simp at h
  · simp at h
  · simp at h
  · simp at h
  · by_cases h1 : check .tIn (advanceL ts) = true
    · rw [if_pos h1] at h; simp at h
    · rw [if_neg h1] at h
      by_cases h2 : check .tLike (advanceL ts) = true
      · rw [if_pos h2] at h; simp at h
      · rw [if_neg h2] at h
        by_cases h3 : check .tRegexpMatch (advanceL ts) = true
        · rw [if_pos h3] at h; simp at h
        · rw [if_neg h3] at h; simp at h; subst h; exact noUnk_perr _ _ (by decide)
  · simp at h
  · by_cases h1 : check .tAny (advanceL ts) = true
    · rw [if_pos h1] at h; simp at h
    · rw [if_neg h1] at h
      by_cases h2 : check .tAll (advanceL ts) = true
      · rw [if_pos h2] at h; simp at h
      · rw [if_neg h2] at h
        by_cases h3 : check .tNone (advanceL ts) = true
        · rw [if_pos h3] at h; simp at h
        · rw [if_neg h3] at h; simp at h; subst h; exact noUnk_perr _ _ (by decide)
  · by_cases h1 : check .tNot (advanceL ts) = true
    · rw [if_pos h1] at h
      by_cases h2 : check .tNull (advanceL (advanceL ts)) = true
      · rw [if_pos h2] at h; simp at h
      · rw [if_neg h2] at h; simp at h; subst h; exact noUnk_perr _ _ (by decide)
    · rw [if_neg h1] at h
      by_cases h2 : check .tNull (advanceL ts) = true
      · rw [if_pos h2] at h; simp at h
      · rw [if_neg h2] at h; simp at h; subst h; exact noUnk_perr _ _ (by decide)
  · simp at h
  · simp at h
  · simp at h
  · simp at h
    subst h
    exact noUnk_append "expected operator, got " _ (by decide) (by decide)

/-- Every parse error of `parseSimpleValue` avoids the `unk` prefix. -/
theorem parseSimpleValue_msg (ts : List Token) (e : ParseError)
    (h : parseSimpleValue ts = .error e) : NoUnk e.message := by
  unfold parseSimpleValue at h
  split at h
  · simp at h
  · simp at h
  · simp at h
  · simp at h
    subst h
    exact noUnk_append "expected value, got " _ (by decide) (by decide)

/-- Every parse error of the list-value loop avoids the `unk` prefix. -/
theorem parseListAux_msg (fuel : Nat) : ∀ (acc : List String) (ts : List Token)
    (e : ParseError), parseListAux fuel acc ts = .error e → NoUnk e.message := by
  induction fuel with
  | zero =>
    intro acc ts e h
    simp [parseListAux] at h
    subst h
    exact noUnk_perr _ _ (by decide)
  | succ n ih =>
    intro acc ts e h
    unfold parseListAux at h
    cases hf : parseSimpleValue ts with
    | error e2 =>
      rw [hf] at h
      simp at h
      subst h
      exact parseSimpleValue_msg ts e2 hf
    | ok p =>
      rw [hf] at h
      rcases p with ⟨v, ts1⟩
      dsimp only at h
      by_cases hcm : check .tComma ts1 = true
      · rw [if_pos hcm] at h
        exact ih _ _ e h
      · rw [if_neg hcm] at h
        simp at h

/-- Every parse error of `parseList` avoids the `unk` prefix. -/
theorem parseList_msg (fuel : Nat) (ts : List Token) (e : ParseError)
    (h : parseList fuel ts = .error e) : NoUnk e.message := by
  unfold parseList at h
  by_cases hlp : check .tLParen ts = true
  · rw [if_pos hlp] at h
    cases hf : parseListAux fuel [] (advanceL ts) with
    | error e2 =>
      rw [hf] at h
      simp at h
      subst h
      exact parseListAux_msg fuel [] (advanceL ts) e2 hf
    | ok p =>
      rw [hf] at h
      rcases p with ⟨items, ts1⟩
      dsimp only at h
      by_cases hrp : check .tRParen ts1 = true
      · rw [if_pos hrp] at h; simp at h
      · rw [if_neg hrp] at h
        simp at h
        subst h
        exact noUnk_perr _ _ (by decide)
  · rw [if_neg hlp] at h
    simp at h
    subst h
    exact noUnk_perr _ _ (by decide)

/-- On a good token stream, every parse error of `parseValue` avoids the
`unk` prefix: in particular the `unknown date range` branch is unreachable
because the date-range token in hand always carries a table key. -/
theorem parseValue_msg (fuel : Nat) (op : Operator) (ts : List Token) (e : ParseError)
    (hg : GoodToks ts) (h : parseValue fuel op ts = .error e) : NoUnk e.message := by
  unfold parseValue at h
  by_cases hdu : op = .opDuring
  · rw [if_pos hdu] at h
    by_cases hdr : check .tDateRange ts = true
    · rw [if_pos hdr] at h
      cases hl : lookupDR (current ts).value with
      | none =>
        exfalso
        have hty : (current ts).type = .tDateRange := by simpa [check] using hdr
        cases ts with
        | nil => simp [current] at hty
        | cons t rest =>
          simp only [current, List.headD_cons] at hty hl
          have := hg t (by simp) hty
          rw [hl] at this
          simp at this
      | some dr =>
        rw [hl] at h
        simp at h
    · rw [if_neg hdr] at h
      simp at h
      subst h
      exact noUnk_perr _ _ (by decide)
  · rw [if_neg hdu] at h
    by_cases hbt : op = .opBetween
    · rw [if_pos hbt] at h
      cases hf : parseSimpleValue ts with
      | error e2 =>
        rw [hf] at h
        simp at h
        subst h
        exact parseSimpleValue_msg ts e2 hf
      | ok p =>
        rw [hf] at h
        rcases p with ⟨start, ts1⟩
        dsimp only at h
        by_cases hand : check .tAnd ts1 = true
        · rw [if_pos hand] at h
          cases hgg : parseSimpleValue (advanceL ts1) with
          | error e2 =>
            rw [hgg] at h
            simp at h
            subst h
            exact parseSimpleValue_msg (advanceL ts1) e2 hgg
          | ok q =>
            rw [hgg] at h
            rcases q with ⟨stop, ts3⟩
            simp at h
        · rw [if_neg hand] at h
          simp at h
          subst h
          exact noUnk_perr _ _ (by decide)
    · rw [if_neg hbt] at h
      by_cases hinb : (op = .opIn || op = .opNotIn || op = .opContainsAny ||
          op = .opContainsAll || op = .opContainsNone) = true
      · rw [if_pos hinb] at h
        exact parseList_msg fuel ts e h
      · rw [if_neg hinb] at h
        split at h
        · simp at h
        · revert h
          cases hgf : goParseFloat (current ts).value with
          | none =>
            intro h
            simp at h
            subst h
            exact noUnk_append "invalid number: " _ (by decide) (by decide)
          | some nv =>
            intro h
            simp at h
        · simp at h
        · simp at h
          subst h
          exact noUnk_append "expected value, got " _ (by decide) (by decide)

/-- On a good token stream, every parse error of `parseCondition` avoids the
`unk` prefix. -/
theorem parseCondition_msg (fuel : Nat) (ts : List Token) (e : ParseError)
    (hg : GoodToks ts) (h : parseCondition fuel ts = .error e) : NoUnk e.message := by
  unfold parseCondition at h
  cases hf : parseField fuel ts with
  | error e2 =>
    rw [hf] at h
    simp at h
    subst h
    exact parseField_msg fuel ts e2 hf
  | ok p =>
    rw [hf] at h
    rcases p with ⟨f, ts1⟩
    dsimp only at h
    cases hop : parseOperator ts1 with
    | error e2 =>
      rw [hop] at h
      simp at h
      subst h
      exact parseOperator_msg ts1 e2 hop
    | ok q =>
      rw [hop] at h
      rcases q with ⟨op, tsB⟩
      dsimp only at h
      by_cases hnull : (op = .opIsNull || op = .opIsNotNull) = true
      · rw [if_pos hnull] at h
        simp at h
      · rw [if_neg hnull] at h
        cases hv : parseValue fuel op tsB with
        | error e2 =>
          rw [hv] at h
          simp at h
          subst h
          have hg1 : GoodToks ts1 := goodToks_sub hg (parseField_sub fuel ts f ts1 hf)
          have hgB : GoodToks tsB := goodToks_sub hg1 (parseOperator_sub ts1 op tsB hop)
          exact parseValue_msg fuel op tsB e2 hgB hv
        | ok r =>
          rw [hv] at h
          rcases r with ⟨v, ts3⟩
          simp at h

/-- On a good token stream, every parse error of the conditions loop avoids
the `unk` prefix. -/
theorem parseConditionsAux_msg (fuel : Nat) : ∀ (acc : List Condition) (ts : List Token)
    (e : ParseError), GoodToks ts → parseConditionsAux fuel acc ts = .error e →
    NoUnk e.message := by
  induction fuel with
  | zero =>
    intro acc ts e _ h
    simp [parseConditionsAux] at h
    subst h
    exact noUnk_perr _ _ (by decide)
  | succ n ih =>
    intro acc ts e hg h
    unfold parseConditionsAux at h
    cases hf : parseCondition n ts with
    | error e2 =>
      rw [hf] at h
      simp at h
      subst h
      exact parseCondition_msg n ts e2 hg hf
    | ok p =>
      rw [hf] at h
      rcases p with ⟨c, ts1⟩
      dsimp only at h
      by_cases hand : check .tAnd ts1 = true
      · rw [if_pos hand] at h
        have hg1 : GoodToks (advanceL ts1) :=
          goodToks_sub (goodToks_sub hg (parseCondition_sub n ts c ts1 hf))
            (fun x hx => List.mem_of_mem_tail hx)
        exact ih _ _ e hg1 h
      · rw [if_neg hand] at h
        simp at h

/-- Every parse error of the orderings loop avoids the `unk` prefix. -/
theorem parseOrderingsAux_msg (fuel : Nat) : ∀ (acc : List Ordering) (ts : List Token)
    (e : ParseError), parseOrderingsAux fuel acc ts = .error e → NoUnk e.message := by
  induction fuel with
  | zero =>
    intro acc ts e h
    simp [parseOrderingsAux] at h
    subst h
    exact noUnk_perr _ _ (by decide)
  | succ n ih =>
    intro acc ts e h
    unfold parseOrderingsAux at h
    cases hf : parseField n ts with
    | error e2 =>
      rw [hf] at h
      simp at h
      subst h
      exact parseField_msg n ts e2 hf
    | ok p =>
      rw [hf] at h
      rcases p with ⟨f, ts1⟩
      dsimp only at h
      by_cases hd : check .tDesc ts1 = true
      · rw [if_pos hd] at h
        dsimp only at h
        by_cases hcm : check .tComma (advanceL ts1) = true
        · rw [if_pos hcm] at h
          exact ih _ _ e h
        · rw [if_neg hcm] at h; simp at h
      · rw [if_neg hd] at h
        by_cases ha : check .tAsc ts1 = true
        · rw [if_pos ha] at h
          dsimp only at h
          by_cases hcm : check .tComma (advanceL ts1) = true
          · rw [if_pos hcm] at h
            exact ih _ _ e h
          · rw [if_neg hcm] at h; simp at h
        · rw [if_neg ha] at h
          dsimp only at h
          by_cases hcm : check .tComma ts1 = true
          · rw [if_pos hcm] at h
            exact ih _ _ e h
          · rw [if_neg hcm] at h; simp at h

/-- Every parse error of the parameters loop avoids the `unk` prefix. -/
theorem parseParametersAux_msg (fuel : Nat) : ∀ (acc : List (String × String))
    (ts : List Token) (e : ParseError),
    parseParametersAux fuel acc ts = .error e → NoUnk e.message := by
  induction fuel with
  | zero =>
    intro acc ts e h
    simp [parseParametersAux] at h
    subst h
    exact noUnk_perr _ _ (by decide)
  | succ n ih =>
    intro acc ts e h
    unfold parseParametersAux at h
    by_cases hid : check .tIdent ts = true
    · rw [if_pos hid] at h
      dsimp only at h
      by_cases heq : check .tEq (advanceL ts) = true
      · rw [if_pos heq] at h
        cases hf : parseSimpleValue (advanceL (advanceL ts)) with
        | error e2 =>
          rw [hf] at h
          simp at h
          subst h
          exact parseSimpleValue_msg _ e2 hf
        | ok p =>
          rw [hf] at h
          rcases p with ⟨v, ts2⟩
          dsimp only at h
          by_cases hcm : check .tComma ts2 = true
          · rw [if_pos hcm] at h
            exact ih _ _ e h
          · rw [if_neg hcm] at h; simp at h
      · rw [if_neg heq] at h
        simp at h
        subst h
        exact noUnk_perr _ _ (by decide)
    · rw [if_neg hid] at h
      simp at h
      subst h
      exact noUnk_perr _ _ (by decide)

/-- Every parse error of the optional LIMIT clause avoids the `unk` prefix. -/
theorem parseLimitOpt_msg (ts : List Token) (e : ParseError)
    (h : parseLimitOpt ts = .error e) : NoUnk e.message := by
  unfold parseLimitOpt at h
  by_cases hl : check .tLimit ts = true
  · rw [if_pos hl] at h
    dsimp only at h
    by_cases hn : check .tNumber (advanceL ts) = true
    · rw [if_pos hn] at h
      cases hgA : goAtoi (current (advanceL ts)).value with
      | none =>
        rw [hgA] at h
        simp at h
        subst h
        exact noUnk_append "invalid LIMIT value: " _ (by decide) (by decide)
      | some m =>
        rw [hgA] at h
        by_cases hm : m ≤ 0
        · simp [hm] at h
          subst h
          exact noUnk_perr _ _ (by decide)
        · simp [hm] at h
    · rw [if_neg hn] at h
      simp at h
      subst h
      exact noUnk_perr _ _ (by decide)
  · rw [if_neg hl] at h
    simp at h

/-- On a good token stream, every parse error of the optional WHERE clause
avoids the `unk` prefix. -/
theorem parseWhereOpt_msg (fuel : Nat) (ts : List Token) (e : ParseError)
    (hg : GoodToks ts) (h : parseWhereOpt fuel ts = .error e) : NoUnk e.message := by
  unfold parseWhereOpt at h
  by_cases hw : check .tWhere ts = true
  · rw [if_pos hw] at h
    exact parseConditionsAux_msg fuel [] (advanceL ts) e
      (goodToks_sub hg (fun x hx => List.mem_of_mem_tail hx)) h
  · rw [if_neg hw] at h
    simp at h

/-- Every parse error of the optional ORDER BY clause avoids the `unk`
prefix. -/
theorem parseOrderByOpt_msg (fuel : Nat) (ts : List Token) (e : ParseError)
    (h : parseOrderByOpt fuel ts = .error e) : NoUnk e.message := by
  unfold parseOrderByOpt at h
  by_cases ho : check .tOrderBy ts = true
  · rw [if_pos ho] at h
    exact parseOrderingsAux_msg fuel [] (advanceL ts) e h
  · rw [if_neg ho] at h
    simp at h

/-- Every parse error of the optional PARAMETERS clause avoids the `unk`
prefix. -/
theorem parseParametersOpt_msg (fuel : Nat) (ts : List Token) (e : ParseError)
    (h : parseParametersOpt fuel ts = .error e) : NoUnk e.message := by
  unfold parseParametersOpt at h
  by_cases hp : check .tParameters ts = true
  · rw [if_pos hp] at h
    exact parseParametersAux_msg fuel [] (advanceL ts) e h
  · rw [if_neg hp] at h
    simp at h

/-- On a good token stream, every parse error of `parseQuery` avoids the
`unk` prefix. -/
theorem parseQuery_msg (tokens : List Token) (e : ParseError)
    (hg : GoodToks tokens) (h : parseQuery tokens = .error e) : NoUnk e.message := by
  simp only [parseQuery] at h
  by_cases hsel : check .tSelect tokens = true
  · rw [if_pos hsel] at h
    cases hfl : parseFieldList (tokens.length + 1) (advanceL tokens) with
    | error e2 =>
      rw [hfl] at h
      simp at h
      subst h
      exact parseFieldList_msg _ _ e2 hfl
    | ok p =>
      rw [hfl] at h
      rcases p with ⟨fields, ts1⟩
      dsimp only at h
      by_cases hfrom : check .tFrom ts1 = true
      · rw [if_pos hfrom] at h
        by_cases hid : check .tIdent (advanceL ts1) = true
        · rw [if_pos hid] at h
          have hg1 : GoodToks ts1 :=
            goodToks_sub (goodToks_sub hg (fun x hx => List.mem_of_mem_tail hx))
              (parseFieldList_sub _ _ _ _ hfl)
          have hg3 : GoodToks (advanceL (advanceL ts1)) :=
            goodToks_sub hg1 (fun x hx =>
              List.mem_of_mem_tail (List.mem_of_mem_tail hx))
          cases hwh : parseWhereOpt (tokens.length + 1) (advanceL (advanceL ts1)) with
          | error e2 =>
            rw [hwh] at h
            simp at h
            subst h
            exact parseWhereOpt_msg _ _ e2 hg3 hwh
          | ok pw =>
            rw [hwh] at h
            rcases pw with ⟨conds, ts4⟩
            dsimp only at h
            cases hob : parseOrderByOpt (tokens.length + 1) ts4 with
            | error e2 =>
              rw [hob] at h
              simp at h
              subst h
              exact parseOrderByOpt_msg _ _ e2 hob
            | ok po =>
              rw [hob] at h
              rcases po with ⟨ords, ts5⟩
              dsimp only at h
              cases hlm : parseLimitOpt ts5 with
              | error e2 =>
                rw [hlm] at h
                simp at h
                subst h
                exact parseLimitOpt_msg _ e2 hlm
              | ok pl =>
                rw [hlm] at h
                rcases pl with ⟨lim, ts6⟩
                dsimp only at h
                cases hpp : parseParametersOpt (tokens.length + 1) ts6 with
                | error e2 =>
                  rw [hpp] at h
                  simp at h
                  subst h
                  exact parseParametersOpt_msg _ _ e2 hpp
                | ok ppr =>
                  rw [hpp] at h
                  rcases ppr with ⟨params, ts7⟩
                  dsimp only at h
                  by_cases heof : check .tEOF ts7 = true
                  · rw [if_pos heof] at h
                    simp at h
                  · rw [if_neg heof] at h
                    simp at h
                    subst h
                    exact noUnk_append "unexpected token: " _ (by decide) (by decide)
        · rw [if_neg hid] at h
          simp at h
          subst h
          exact noUnk_perr _ _ (by decide)
      · rw [if_neg hfrom] at h
        simp at h
        subst h
        exact noUnk_perr _ _ (by decide)
  · rw [if_neg hsel] at h
    simp at h
    subst h
    exact noUnk_perr _ _ (by decide)

/-- Every lexer error avoids the `unk` prefix. -/
theorem tokenizeF_msg : ∀ (fuel : Nat) (input : List Char) (line col : Nat)
    (e : ParseError), (tokenizeF fuel input line col).2 = some e → NoUnk e.message := by
  intro fuel
  induction fuel with
  | zero =>
    intro input line col e h
    simp [tokenizeF] at h
    rw [← h]
    decide
  | succ n ih =>
    intro input line col e h
    unfold tokenizeF at h
    rcases hnt : nextToken input line col with ⟨tok, rest, l, c⟩
    rw [hnt] at h
    dsimp only at h
    by_cases he : tok.type = .tEOF
    · simp [he] at h
    · rw [if_neg he] at h
      by_cases hr : tok.type = .tError
      · rw [if_pos hr] at h
        simp at h
        rw [← h]
        have := nextToken_errval input line col (by rw [hnt]; exact hr)
        rw [hnt] at this
        exact this
      · rw [if_neg hr] at h
        rcases hrec : tokenizeF n rest l c with ⟨toks, err⟩
        rw [hrec] at h
        dsimp only at h
        have := ih rest l c e
        rw [hrec] at this
        exact this h

/-- C9: every date-range token the lexer emits carries a key of the
date-range keyword table, so the `unknown date range` branch of the parser
is unreachable: `Parse` never returns a message of that form. -/
theorem unknown_date_range_unreachable (s : String) :
    (∀ t ∈ (Tokenize s).1, t.type = .tDateRange → (lookupDR t.value).isSome = true) ∧
    (∀ e, Parse s = .error e → ∀ v, e.message ≠ "unknown date range: " ++ v) := by
  constructor
  · intro t ht hty
    exact (tokenize_tokOK s t ht).2.1 hty
  · intro e h v heq
    have hno : NoUnk e.message := by
      unfold Parse at h
      rcases htk : Tokenize s with ⟨tokens, err⟩
      rw [htk] at h
      cases err with
      | some e2 =>
        dsimp only at h
        simp at h
        rw [← h]
        have hmsg := tokenizeF_msg (s.data.length + 1) s.data 1 1 e2
        unfold Tokenize at htk
        rw [htk] at hmsg
        exact hmsg rfl
      | none =>
        dsimp only at h
        have hgood : GoodToks tokens := by
          intro t ht hty
          have := tokenize_tokOK s t
          rw [htk] at this
          exact (this ht).2.1 hty
        exact parseQuery_msg tokens e hgood h
    apply hno
    rw [heq, String.data_append]
    have hlen : 3 ≤ ("unknown date range: ").data.length := by decide
    rw [List.take_append_eq_append_take, Nat.sub_eq_zero_of_le hlen,
        List.take_zero, List.append_nil]
    decide

/-- Witness for C9: the parse error for the empty input is not an
`unknown date range` message. -/
theorem unknown_date_range_unreachable_witness :
    ParseError.message ⟨"expected SELECT clause", 1, 1⟩ ≠
      "unknown date range: " ++ "x" :=
  (unknown_date_range_unreachable "").2 ⟨"expected SELECT clause", 1, 1⟩ (by rfl) "x"

/-! Claim C3.  The single-day resource rule. -/

/-- Relevance test of the amended C3 claim: a condition on `segments.date`
whose operator is DURING, `=` or BETWEEN.  Conditions failing this test are
passed over by the rule. -/
def relevantSingleDay (c : Condition) : Bool :=
  c.field = "segments.date" &&
  (c.operator = .opDuring || c.operator = .opEq || c.operator = .opBetween)

/-- Specification-side reading of the amended C3 claim: the first relevant
condition alone decides the single-day rule; DURING TODAY or YESTERDAY,
`=` with any value, and BETWEEN with two equal endpoints succeed, any other
relevant condition fails with the corresponding message, and in the absence
of a relevant condition the rule fails with a FROM-tagged message. -/
def specSingleDay (conds : List Condition) : Option ValidationError :=
  match conds.find? relevantSingleDay with
  | none =>
    some ⟨"click_view requires segments.date in WHERE clause with single-day range", "FROM"⟩
  | some c =>
    if c.operator = .opDuring then
      if c.value.dateRange = .today ∨ c.value.dateRange = .yesterday then none
      else some ⟨"click_view requires single-day date range (TODAY or YESTERDAY)", "segments.date"⟩
    else if c.operator = .opEq then none
    else
      match c.value.list with
      | [x, y] =>
        if x = y then none
        else some ⟨"click_view requires single-day date range", "segments.date"⟩
      | _ => some ⟨"click_view requires single-day date range", "segments.date"⟩

/-- C3 counterexample: the claim predicts that a `click_view` query whose
WHERE clause contains `segments.date = ...` passes validation, but the code
decides the rule at the first DURING/`=`/BETWEEN condition on
`segments.date`; with `DURING LAST_7_DAYS` first, validation fails — and
with a longer message than the claim states. -/
theorem single_day_rule_counterexample :
    Parse "SELECT a FROM click_view WHERE segments.date DURING LAST_7_DAYS AND segments.date = \x27x\x27" =
      .ok ⟨[⟨"a"⟩], "click_view",
        [⟨"segments.date", .opDuring, dateRangeValue .last7Days⟩,
         ⟨"segments.date", .opEq, strValue "x"⟩], [], 0, []⟩ ∧
    (∃ c ∈ ([⟨"segments.date", .opDuring, dateRangeValue .last7Days⟩,
             ⟨"segments.date", .opEq, strValue "x"⟩] : List Condition),
      c.field = "segments.date" ∧ c.operator = .opEq) ∧
    Validate NewValidator
      ⟨[⟨"a"⟩], "click_view",
        [⟨"segments.date", .opDuring, dateRangeValue .last7Days⟩,
         ⟨"segments.date", .opEq, strValue "x"⟩], [], 0, []⟩ =
      some ⟨"click_view requires single-day date range (TODAY or YESTERDAY)", "segments.date"⟩ :=
  ⟨by rfl, by decide, by rfl⟩

/-- Lemma behind the amended C3 claim: the condition scan of the validator
equals the first-relevant-condition reading. -/
theorem singleDayScan_eq_spec (conds : List Condition) :
    singleDayScan conds = specSingleDay conds := by
  induction conds with
  | nil => rfl
  | cons c rest ih =>
    by_cases hf : c.field = "segments.date"
    · by_cases hdu : c.operator = .opDuring
      · simp [singleDayScan, specSingleDay, relevantSingleDay, List.find?_cons, hf, hdu]
      · by_cases heq : c.operator = .opEq
        · simp [singleDayScan, specSingleDay, relevantSingleDay, List.find?_cons, hf, hdu, heq]
        · by_cases hbt : c.operator = .opBetween
          · simp [singleDayScan, specSingleDay, relevantSingleDay, List.find?_cons, hf, hdu, heq, hbt]
          · have : relevantSingleDay c = false := by
              simp [relevantSingleDay, hf, hdu, heq, hbt]
            simp only [singleDayScan, hf, hdu, heq, hbt, if_true, if_false]
            rw [ih]
            simp [specSingleDay, List.find?_cons, this]
    · have : relevantSingleDay c = false := by simp [relevantSingleDay, hf]
      simp only [singleDayScan, hf, if_false]
      rw [ih]
      simp [specSingleDay, List.find?_cons, this]

/-- C3 amended: for a query on the single-day resource `click_view`, the
validator rule equals the first-match reading `specSingleDay` of its WHERE
clause; the full `Validate` additionally runs the other rules first, which
can fail independently (as the counterexample with invalid BETWEEN dates
shows). -/
theorem single_day_rule_first_match (q : Query) (h : q.from_ = "click_view") :
    validateSingleDayResource q = specSingleDay q.where_ := by
  unfold validateSingleDayResource
  rw [h]
  rw [if_pos (by decide)]
  exact singleDayScan_eq_spec q.where_

/-- Witness for the amended C3 theorem on a concrete query. -/
theorem single_day_rule_first_match_witness :
    validateSingleDayResource
      ⟨[⟨"a"⟩], "click_view", [⟨"segments.date", .opGt, strValue "x"⟩], [], 0, []⟩ =
      specSingleDay [⟨"segments.date", .opGt, strValue "x"⟩] :=
  single_day_rule_first_match
    ⟨[⟨"a"⟩], "click_view", [⟨"segments.date", .opGt, strValue "x"⟩], [], 0, []⟩ rfl

/-! Claim C4.  The metric-date-context rule, characterised completely. -/

/-- C4: with `require_metric_date_context` set, the metric-date-context rule
fails — with exactly the message `metrics require date context (segments.date
in SELECT or WHERE)` and no field tag — precisely when some select field name
starts with `metrics.` and `segments.date` occurs neither among the select
field names nor among the where-condition fields; with the flag unset the
rule never fails; and the default validator sets the flag. -/
theorem metric_date_context_rule (v : Validator) (q : Query) :
    (v.requireMetricDateContext = true →
      validateMetricDateContext v q =
        (if ((q.select.any fun f => strHasPre "metrics." f.name) &&
             !((q.select.any fun f => f.name = "segments.date") ||
               (q.where_.any fun c => c.field = "segments.date"))) = true then
          some ⟨"metrics require date context (segments.date in SELECT or WHERE)", ""⟩
        else none)) ∧
    (v.requireMetricDateContext = false → validateMetricDateContext v q = none) ∧
    NewValidator.requireMetricDateContext = true := by
  refine ⟨?_, ?_, rfl⟩
  · intro h
    cases hm : q.select.any fun f => strHasPre "metrics." f.name <;>
      cases hd1 : q.select.any fun f => f.name = "segments.date" <;>
      cases hd2 : q.where_.any fun c => c.field = "segments.date" <;>
      simp [validateMetricDateContext, h, hm, hd1, hd2]
  · intro h
    simp [validateMetricDateContext, h]

/-- Witness for C4: a query selecting a metric with no date context is
rejected by the rule with the stated message. -/
theorem metric_date_context_rule_witness :
    validateMetricDateContext NewValidator ⟨[⟨"metrics.clicks"⟩], "campaign", [], [], 0, []⟩ =
      some ⟨"metrics require date context (segments.date in SELECT or WHERE)", ""⟩ :=
  ((metric_date_context_rule NewValidator
      ⟨[⟨"metrics.clicks"⟩], "campaign", [], [], 0, []⟩).1 rfl).trans (by decide)

/-! Claim C10.  Resource matching is case-sensitive. -/

/-- C10: identifiers keep their spelling and the resource tables are
consulted verbatim, so a string differing from a known resource only in
letter case is itself unknown; in strict mode `validateFrom` rejects it with
`unknown resource`, the single-day rule does not fire for any casing variant
of `click_view`, and the full default pipeline accepts
`SELECT a FROM Click_View` with no `segments.date` condition at all. -/
theorem resource_matching_case_sensitive (s r : String) (q : Query)
    (h1 : r ∈ KnownResources) (h2 : asciiLowerString s = r) (h3 : s ≠ r) :
    s ∉ KnownResources ∧
    (∀ v : Validator, v.allowUnknownResources = false → q.from_ = s →
      validateFrom v q = some ⟨"unknown resource: " ++ s, "FROM"⟩) ∧
    (q.from_ = s → validateSingleDayResource q = none) ∧
    ValidateQuery "SELECT a FROM Click_View" =
      .ok ⟨[⟨"a"⟩], "Click_View", [], [], 0, []⟩ := by
  have hlow : ∀ x ∈ KnownResources, asciiLowerString x = x := by decide
  have hnotmem : s ∉ KnownResources := by
    intro hs
    exact h3 (((hlow s hs).symm.trans h2))
  have hne : s ≠ "" := by
    intro he
    rw [he] at h2
    have : r = "" := h2.symm
    rw [this] at h1
    exact absurd h1 (by decide)
  refine ⟨hnotmem, ?_, ?_, by rfl⟩
  · intro v hv hq
    simp [validateFrom, hq, hne, hv, hnotmem]
  · intro hq
    have hscv : s ≠ "click_view" := by
      intro he
      apply h3
      rw [he] at h2 ⊢
      exact (h2.symm.trans (by decide)).symm
    simp [validateSingleDayResource, hq, SingleDayResources, hscv]

/-- Witness for C10 at the casing variant `Click_View` of `click_view`. -/
theorem resource_matching_case_sensitive_witness :
    validateFrom ⟨false, true⟩ ⟨[⟨"a"⟩], "Click_View", [], [], 0, []⟩ =
      some ⟨"unknown resource: Click_View", "FROM"⟩ :=
  (resource_matching_case_sensitive "Click_View" "click_view"
      ⟨[⟨"a"⟩], "Click_View", [], [], 0, []⟩
      (by decide) (by decide) (by decide)).2.1 ⟨false, true⟩ rfl rfl

/-! Claim C5.  LIMIT must be a strictly positive integer. -/

/-- A dot in the argument makes `goAtoi` fail: the digit run cannot contain it. -/
theorem goAtoi_none_of_dot (s : String) (h : '.' ∈ s.data) : goAtoi s = none := by
  have hdig : ∀ ds : List Char, '.' ∈ ds → ds.all isDigitC = false := by
    intro ds hds
    cases hx : ds.all isDigitC
    · rfl
    · have := List.all_eq_true.mp hx '.' hds
      simp [isDigitC] at this
  unfold goAtoi
  by_cases hs : (s.data.head? = some '-' || s.data.head? = some '+') = true
  · have hdot : '.' ∈ s.data.tail := by
      cases hd : s.data with
      | nil => rw [hd] at h; exact absurd h (by simp)
      | cons c r =>
        rw [hd] at h hs
        simp only [List.head?_cons, Option.some.injEq] at hs
        have hc : c ≠ '.' := by
          rcases Bool.or_eq_true_iff.mp hs with h1 | h1
          · rw [of_decide_eq_true h1]; decide
          · rw [of_decide_eq_true h1]; decide
        simp only [List.tail_cons]
        rcases List.mem_cons.mp h with h2 | h2
        · exact absurd h2.symm hc
        · exact h2
    simp only [hs, if_true]
    have hne : s.data.tail ≠ [] := List.ne_nil_of_mem hdot
    simp [hne, hdig _ hdot]
  · simp only [Bool.not_eq_true] at hs
    simp only [hs, Bool.false_eq_true, if_false]
    have hne : s.data ≠ [] := List.ne_nil_of_mem h
    simp [hne, hdig _ h]

/-- C5: after a LIMIT keyword the parser succeeds exactly on a number token
whose `Atoi` conversion is a strictly positive integer; a convertible value
that is zero or negative fails with `LIMIT must be a positive integer` at the
number token; a fractional value fails with `invalid LIMIT value`; and the
three boundary inputs of the spec behave accordingly end to end. -/
theorem limit_clause_positive (ts : List Token) (h : check .tLimit ts = true) :
    (∀ n ts2, parseLimitOpt ts = .ok (n, ts2) →
      (current (advanceL ts)).type = .tNumber ∧
      goAtoi (current (advanceL ts)).value = some n ∧ 0 < n ∧
      ts2 = advanceL (advanceL ts)) ∧
    (∀ n : Int, (current (advanceL ts)).type = .tNumber →
      goAtoi (current (advanceL ts)).value = some n → n ≤ 0 →
      parseLimitOpt ts = .error ⟨"LIMIT must be a positive integer",
        (current (advanceL ts)).line, (current (advanceL ts)).column⟩) ∧
    ((current (advanceL ts)).type = .tNumber → '.' ∈ (current (advanceL ts)).value.data →
      parseLimitOpt ts = .error ⟨"invalid LIMIT value: " ++ (current (advanceL ts)).value,
        (current (advanceL ts)).line, (current (advanceL ts)).column⟩) ∧
    Parse "SELECT a FROM b LIMIT 0" = .error ⟨"LIMIT must be a positive integer", 1, 23⟩ ∧
    Parse "SELECT a FROM b LIMIT -1" = .error ⟨"LIMIT must be a positive integer", 1, 23⟩ ∧
    Parse "SELECT a FROM b LIMIT 1.5" = .error ⟨"invalid LIMIT value: 1.5", 1, 23⟩ := by
  refine ⟨?_, ?_, ?_, by rfl, by rfl, by rfl⟩
  · intro n ts2 hok
    simp only [parseLimitOpt, h, if_true] at hok
    by_cases ht : check .tNumber (advanceL ts) = true
    · rw [if_pos ht] at hok
      have htype : (current (advanceL ts)).type = .tNumber := by
        simpa [check] using ht
      cases hg : goAtoi (current (advanceL ts)).value with
      | none => rw [hg] at hok; simp at hok
      | some m =>
        rw [hg] at hok
        by_cases hm0 : m ≤ 0
        · simp [hm0] at hok
        · simp [hm0] at hok
          obtain ⟨h1, h2⟩ := hok
          exact ⟨htype, by rw [h1], by omega, h2.symm⟩
    · rw [if_neg ht] at hok
      exact absurd hok (by simp)
  · intro n htype hconv hn0
    have ht : check .tNumber (advanceL ts) = true := by simp [check, htype]
    simp only [parseLimitOpt, h, if_true]
    rw [if_pos ht, hconv]
    simp [hn0, perr]
  · intro htype hdot
    have ht : check .tNumber (advanceL ts) = true := by simp [check, htype]
    simp only [parseLimitOpt, h, if_true]
    rw [if_pos ht, goAtoi_none_of_dot _ hdot]

/-- Witness for C5: LIMIT 0 inside a token stream is rejected with the
positive-integer message at the number token. -/
theorem limit_clause_positive_witness :
    parseLimitOpt [⟨.tLimit, "LIMIT", 1, 17⟩, ⟨.tNumber, "0", 1, 23⟩, ⟨.tEOF, "", 1, 24⟩] =
      .error ⟨"LIMIT must be a positive integer", 1, 23⟩ :=
  (limit_clause_positive
      [⟨.tLimit, "LIMIT", 1, 17⟩, ⟨.tNumber, "0", 1, 23⟩, ⟨.tEOF, "", 1, 24⟩]
      (by decide)).2.1 0 (by decide) (by decide) (by decide)

end Gaql
